import Mathlib

/-!
Verification of the `tsrename` media-organizing pipeline.

The program (Go, `tsrename.go` with an earlier variant) organizes media
files into a date-structured directory hierarchy.  This development embeds
the pipeline shallowly: Go's pure string/path functions become Lean
functions, and the stateful per-file processing (`visit`, `moveOrRename`,
`moveFilebyCopy`) becomes explicit state passing over a filesystem model
together with an event trace recording the order of system calls.
-/

namespace Tsrename

/-! ### Path model

Semantics of the Go `path` package functions used by the program:
`Clean`, `Join`, `Base`, `Ext`, `Dir`, and `filepath.Abs` (slash-separated
paths; `Abs` is relative to an explicit working directory). -/

/-- Split a character list on `'/'`.  Always returns a non-empty list of
slash-free segments; adjacent separators yield empty segments. -/
def splitSlash : List Char → List (List Char)
  | [] => [[]]
  | c :: rest =>
    if c = '/' then [] :: splitSlash rest
    else
      match splitSlash rest with
      | [] => [[c]]
      | g :: gs => (c :: g) :: gs

/-- The raw components of a path: slash-separated segments with empty
segments and `"."` segments discarded (as Go `path.Clean` does). -/
def rawParts (s : String) : List String :=
  ((splitSlash s.data).map (fun l => String.mk l)).filter
    (fun c => c ≠ "" && c ≠ ".")

/-- One step of Go `path.Clean`'s element processing, on a backwards stack
of already-accepted components.  `".."` pops a normal component, is dropped
at the root of a rooted path, and accumulates at the front of a relative
path. -/
def cleanStep (rooted : Bool) (st : List String) (c : String) : List String :=
  if c = ".." then
    match st with
    | [] => if rooted then [] else [".."]
    | x :: rest => if x = ".." then c :: x :: rest else rest
  else c :: st

/-- The components of the cleaned path, in order. -/
def cleanParts (rooted : Bool) (cs : List String) : List String :=
  (cs.foldl (cleanStep rooted) []).reverse

/-- Join components with `'/'` separators. -/
def joinParts : List String → String
  | [] => ""
  | [x] => x
  | x :: y :: xs => x ++ "/" ++ joinParts (y :: xs)

/-- Whether a path is rooted (begins with `'/'`). -/
def isRooted (s : String) : Bool :=
  match s.data with
  | [] => false
  | c :: _ => c = '/'

/-- Go `path.Clean` semantics: shortest lexically-equivalent path. -/
def pathClean (s : String) : String :=
  if s = "" then "."
  else if isRooted s then "/" ++ joinParts (cleanParts true (rawParts s))
  else if joinParts (cleanParts false (rawParts s)) = "" then "."
  else joinParts (cleanParts false (rawParts s))

/-- Go `path.Join` semantics: drop empty elements, join with `'/'`, then
`Clean`; the empty join is returned unchanged. -/
def pathJoin (elems : List String) : String :=
  let joined := joinParts (elems.filter (fun e => e ≠ ""))
  if joined = "" then "" else pathClean joined

/-- Go `path.Base`: last element of the path after dropping trailing
slashes; `"."` for the empty path, `"/"` for all-slash paths. -/
def pathBase (s : String) : String :=
  if s = "" then "."
  else
    let l := s.data.reverse.dropWhile (fun c => c = '/')
    if l = [] then "/"
    else String.mk ((l.takeWhile (fun c => c ≠ '/')).reverse)

/-- Go `path.Ext`: the suffix of the final element starting at its last
dot, including the dot; `""` when the final element has no dot. -/
def pathExt (s : String) : String :=
  let r := s.data.reverse.takeWhile (fun c => c ≠ '/')
  if r.contains '.' then
    String.mk (((r.takeWhile (fun c => c ≠ '.')) ++ ['.']).reverse)
  else ""

/-- Go `path.Dir`: everything before the final element, cleaned. -/
def pathDir (s : String) : String :=
  pathClean (String.mk ((s.data.reverse.dropWhile (fun c => c ≠ '/')).reverse))

/-- Go `filepath.Abs` relative to an explicit working directory `cwd`
(on a slash-separated filesystem): rooted paths are cleaned, relative
paths are joined onto `cwd`. -/
def absPath (cwd s : String) : String :=
  if isRooted s then pathClean s else pathJoin [cwd, s]

/-- The non-empty slash-separated components of a path string. -/
def pathComponents (s : String) : List String :=
  ((splitSlash s.data).map (fun l => String.mk l)).filter (fun c => c ≠ "")

/-! ### Calendar date-times

Go `time.Time` values as resolved by the two extraction strategies:
second-precision calendar date-times.  Both strategies parse the year from
exactly four digits, so resolved years lie in `0..9999`. -/

structure DateTime where
  year : Nat
  month : Nat
  day : Nat
  hour : Nat
  minute : Nat
  second : Nat
deriving DecidableEq, Repr

/-- Gregorian leap-year rule, as in Go's `time` package. -/
def isLeap (y : Nat) : Bool :=
  y % 4 = 0 && (y % 100 ≠ 0 || y % 400 = 0)

/-- Days in a month, as in Go's `time.daysIn`. -/
def daysIn (y m : Nat) : Nat :=
  if m = 2 then (if isLeap y then 29 else 28)
  else if m = 4 || m = 6 || m = 9 || m = 11 then 30
  else 31

/-- The range checks Go `time.Parse` performs on the fields it parsed
(month, day-in-month, hour, minute, second), plus the four-digit year
bound imposed by the `"2006"` year layout. -/
def DateTime.valid (t : DateTime) : Bool :=
  t.year ≤ 9999 && 1 ≤ t.month && t.month ≤ 12 &&
    1 ≤ t.day && t.day ≤ daysIn t.year t.month &&
    t.hour ≤ 23 && t.minute ≤ 59 && t.second ≤ 59

/-- The decimal digit character for `n % 10`. -/
def digitChar (n : Nat) : Char := Char.ofNat (48 + n % 10)

/-- Two-digit zero-padded decimal, as Go `Format` produces for the
`"01"`/`"02"`/`"15"`/`"04"`/`"05"` layout fields (values `0..99`). -/
def pad2 (n : Nat) : String := String.mk [digitChar (n / 10), digitChar n]

/-- Four-digit zero-padded decimal, as Go `Format` produces for the
`"2006"` year field (years `0..9999`). -/
def pad4 (n : Nat) : String :=
  String.mk [digitChar (n / 1000), digitChar (n / 100), digitChar (n / 10), digitChar n]

/-- Go `t.Format("2006_01_02_15_04_05")` (the `tsForm` constant). -/
def formatTs (t : DateTime) : String :=
  pad4 t.year ++ "_" ++ pad2 t.month ++ "_" ++ pad2 t.day ++ "_" ++
    pad2 t.hour ++ "_" ++ pad2 t.minute ++ "_" ++ pad2 t.second

/-- The `YYYY` directory component. -/
def fY (t : DateTime) : String := pad4 t.year

/-- The `YYYY_MM` directory component. -/
def fYM (t : DateTime) : String := pad4 t.year ++ "_" ++ pad2 t.month

/-- The `YYYY_MM_DD` directory component. -/
def fYMD (t : DateTime) : String := fYM t ++ "_" ++ pad2 t.day

/-- The `YYYY_MM_DD_HH` directory component. -/
def fYMDH (t : DateTime) : String := fYMD t ++ "_" ++ pad2 t.hour

/-- Go `t.Format("2006/2006_01/2006_01_02/2006_01_02_15/")` (the
`tsDirStruct` constant), including its trailing slash. -/
def formatTsDirStruct (t : DateTime) : String :=
  fY t ++ "/" ++ fYM t ++ "/" ++ fYMD t ++ "/" ++ fYMDH t ++ "/"

/-- Whether a character is a decimal digit. -/
def isDig (c : Char) : Bool := '0' ≤ c && c ≤ '9'

/-- Numeric value of a digit character. -/
def digVal (c : Char) : Nat := c.toNat - 48

/-- Value of two digit characters, if both are digits. -/
def parse2 (a b : Char) : Option Nat :=
  if isDig a && isDig b then some (digVal a * 10 + digVal b) else none

/-- Value of four digit characters, if all are digits. -/
def parse4 (a b c d : Char) : Option Nat :=
  if isDig a && isDig b && isDig c && isDig d then
    some (digVal a * 1000 + digVal b * 100 + digVal c * 10 + digVal d)
  else none

/-- Go `time.Parse("2006_01_02_15_04_05", s)`: the input must consist of
exactly a four-digit year and five two-digit fields separated by
underscores, and the fields must pass Go's range checks (month `1..12`,
day `1..daysIn`, hour `< 24`, minute and second `< 60`). -/
def timeParseTs (s : String) : Option DateTime :=
  match s.data with
  | [y1, y2, y3, y4, '_', m1, m2, '_', d1, d2, '_', h1, h2, '_', n1, n2, '_', s1, s2] =>
    match parse4 y1 y2 y3 y4, parse2 m1 m2, parse2 d1 d2,
        parse2 h1 h2, parse2 n1 n2, parse2 s1 s2 with
    | some y, some mo, some d, some h, some mi, some se =>
      let t : DateTime := ⟨y, mo, d, h, mi, se⟩
      if t.valid then some t else none
    | _, _, _, _, _, _ => none
  | _ => none

/-- Go `time.Parse("2006:01:02 15:04:05", s)` (the `dumbExifForm`
constant), with the same range checks. -/
def timeParseDumbExif (s : String) : Option DateTime :=
  match s.data with
  | [y1, y2, y3, y4, ':', m1, m2, ':', d1, d2, ' ', h1, h2, ':', n1, n2, ':', s1, s2] =>
    match parse4 y1 y2 y3 y4, parse2 m1 m2, parse2 d1 d2,
        parse2 h1 h2, parse2 n1 n2, parse2 s1 s2 with
    | some y, some mo, some d, some h, some mi, some se =>
      let t : DateTime := ⟨y, mo, d, h, mi, se⟩
      if t.valid then some t else none
    | _, _, _, _, _, _ => none
  | _ => none

/-- Parse a `YYYY_MM_DD_HH` directory component back into its year, month,
day and hour (the round-trip check of the spec's testable property). -/
def parseYMDH (s : String) : Option (Nat × Nat × Nat × Nat) :=
  match s.data with
  | [y1, y2, y3, y4, '_', m1, m2, '_', d1, d2, '_', h1, h2] =>
    match parse4 y1 y2 y3 y4, parse2 m1 m2, parse2 d1 d2, parse2 h1 h2 with
    | some y, some mo, some d, some h => some (y, mo, d, h)
    | _, _, _, _ => none
  | _ => none

/-- Parse a `YYYY` directory component back into its year. -/
def parseYear (s : String) : Option Nat :=
  match s.data with
  | [y1, y2, y3, y4] => parse4 y1 y2 y3 y4
  | _ => none

/-! ### The timestamp regular expression

`tsrename.go` line 24:
`tsRegexPattern = "[0-9][0-9][0-9][0-9]_[0-1][0-9]_[0-3][0-9]_[0-2][0-9]_[0-5][0-9]_[0-5][0-9]"`.
The pattern is a fixed-length sequence of character classes, modelled as a
list of character predicates; `FindString` takes the leftmost match. -/

/-- Character in an inclusive range. -/
def rangeC (lo hi c : Char) : Bool := lo ≤ c && c ≤ hi

/-- The character classes of `tsRegexPattern` in `tsrename.go`
(month tens `[0-1]`, day tens `[0-3]`, hour tens `[0-2]`,
minute/second tens `[0-5]`). -/
def tsCls : List (Char → Bool) :=
  [isDig, isDig, isDig, isDig, fun c => c = '_',
   rangeC '0' '1', isDig, fun c => c = '_',
   rangeC '0' '3', isDig, fun c => c = '_',
   rangeC '0' '2', isDig, fun c => c = '_',
   rangeC '0' '5', isDig, fun c => c = '_',
   rangeC '0' '5', isDig]

/-- The character classes of `tsRegexPattern` in the earlier variant
(`src/unnamed/part_000` line 25): all positions plain `[0-9]` digits. -/
def tsClsPlain : List (Char → Bool) :=
  [isDig, isDig, isDig, isDig, fun c => c = '_',
   isDig, isDig, fun c => c = '_',
   isDig, isDig, fun c => c = '_',
   isDig, isDig, fun c => c = '_',
   isDig, isDig, fun c => c = '_',
   isDig, isDig]

/-- Match a list of character classes against a prefix of the input,
returning the matched characters. -/
def matchHere : List (Char → Bool) → List Char → Option (List Char)
  | [], _ => some []
  | _ :: _, [] => none
  | p :: ps, c :: cs =>
    if p c then (matchHere ps cs).map (fun m => c :: m) else none

/-- Leftmost match of a fixed character-class pattern in the input
(`regexp.FindString` semantics for this pattern). -/
def findFirst (cls : List (Char → Bool)) : List Char → Option (List Char)
  | [] => match matchHere cls [] with
          | some m => some m
          | none => none
  | c :: cs => match matchHere cls (c :: cs) with
          | some m => some m
          | none => findFirst cls cs

/-- Go `tsRegex.FindString(thisFile)`: the leftmost match, or `""` when
there is none. -/
def tsFindString (s : String) : String :=
  match findFirst tsCls s.data with
  | some m => String.mk m
  | none => ""

/-- The timestamp-resolution failures of the program, named as in the
spec's error taxonomy.  `noTimestamp` is the `"failed regex timestamp from
filename"` error; `malformed` is a `time.Parse` failure; the remaining
three are the metadata strategy's open/decode/tag failures. -/
inductive TsErr
  | noTimestamp
  | malformed
  | openFailed
  | decodeFailed
  | tagFailed
deriving DecidableEq, Repr

/-- `getTimeFromFileTimestamp` (`tsrename.go` lines 132-145): find the
leftmost regex match in the path; error if none; otherwise parse it with
`time.Parse(tsForm, ·)`. -/
def getTimeFromFileTimestamp (thisFile : String) : Except TsErr DateTime :=
  let timestamp := tsFindString thisFile
  if timestamp.length < 1 then Except.error TsErr.noTimestamp
  else
    match timeParseTs timestamp with
    | none => Except.error TsErr.malformed
    | some t => Except.ok t

/-! ### Filesystem and world model

The OS primitives the program uses (`os.Open`, `os.Create`, `os.Remove`,
`os.Rename`, `os.Stat`, `os.MkdirAll`, `ioutil.ReadFile`) over a
string-keyed filesystem of regular files (with contents) and directories.
Modelled failure conditions: open/read fails when the entry is absent,
create fails when the target is an existing directory, mkdir fails when
the target is an existing regular file, rename additionally admits an
external cross-device failure (the condition that makes the program fall
back from `os.Rename` to copying). -/

structure FS where
  files : List (String × String)
  dirs : List String
deriving DecidableEq, Repr

/-- Whether `p` is an existing regular file. -/
def FS.isFile (fs : FS) (p : String) : Bool := (fs.files.lookup p).isSome

/-- Whether `p` is an existing directory. -/
def FS.isDir (fs : FS) (p : String) : Bool := fs.dirs.contains p

/-- `os.Stat` succeeds: the entry exists (file or directory). -/
def FS.statOk (fs : FS) (p : String) : Bool := fs.isFile p || fs.isDir p

/-- Create or truncate-and-write a regular file. -/
def FS.write (fs : FS) (p contents : String) : FS :=
  { fs with files := (p, contents) :: fs.files.filter (fun e => e.1 ≠ p) }

/-- Remove a regular file. -/
def FS.removeFile (fs : FS) (p : String) : FS :=
  { fs with files := fs.files.filter (fun e => e.1 ≠ p) }

/-- Record a directory as existing. -/
def FS.addDir (fs : FS) (d : String) : FS :=
  if fs.dirs.contains d then fs else { fs with dirs := d :: fs.dirs }

/-- `os.MkdirAll(d, 0755)`: fails when `d` is an existing regular file,
otherwise ensures the directory exists. -/
def mkdirAll (fs : FS) (d : String) : Except String FS :=
  if fs.isFile d then Except.error "mkdir: not a directory"
  else Except.ok (fs.addDir d)

/-- The filesystem-touching system calls issued by a transfer, in program
order, so that temporal claims about call ordering can be stated. -/
inductive FsEvent
  | openR (p : String)
  | create (p : String)
  | copyData (src dst : String)
  | remove (p : String)
  | closeDst (p : String)
  | rename (src dst : String)
deriving DecidableEq, Repr

/-- `moveFilebyCopy` (`tsrename.go` lines 43-68): open the source, create
the destination, copy, then — when `del` is set and the absolute paths
differ — remove the source, and finally close the destination.  Returns
the updated filesystem, the ordered system-call trace, and the Go `error`
return. -/
def moveFilebyCopy (del : Bool) (cwd src dst : String) (fs : FS) :
    FS × List FsEvent × Option String :=
  if ¬ fs.statOk src then
    (fs, [], some "open source: no such file or directory")
  else if fs.isDir dst then
    (fs, [FsEvent.openR src], some "create destination: is a directory")
  else
    match fs.files.lookup src with
    | none =>
      ((fs.write dst ""),
        [FsEvent.openR src, FsEvent.create dst, FsEvent.closeDst dst],
        some "copy: is a directory")
    | some contents =>
      let fs1 := fs.write dst contents
      let de :=
        if del then
          if absPath cwd src ≠ absPath cwd dst then
            (fs1.removeFile src, [FsEvent.remove src])
          else (fs1, ([] : List FsEvent))
        else (fs1, ([] : List FsEvent))
      (de.1,
        [FsEvent.openR src, FsEvent.create dst, FsEvent.copyData src dst] ++
          de.2 ++ [FsEvent.closeDst dst],
        none)

/-- `os.Rename`, with an external `xdev` condition standing for the
cross-device failure that forces the copy fallback. -/
def osRename (xdev : Bool) (fs : FS) (src dst : String) : Except String FS :=
  if xdev then Except.error "rename: invalid cross-device link"
  else if ¬ fs.statOk src then Except.error "rename: no such file or directory"
  else if fs.isDir dst then Except.error "rename: is a directory"
  else
    match fs.files.lookup src with
    | none => Except.error "rename: source is a directory"
    | some c => Except.ok ((fs.removeFile src).write dst c)

/-- The diagnostic lines the program writes to standard error, one
constructor per `ERRLOG` call site, carrying the formatted argument. -/
inductive LogLine
  | parse (e : TsErr)
  | mkdirFail (msg : String)
  | dupe (p : String)
  | move (msg : String)
  | jsonCantRead
  | jsonCantUnmarshal
  | parseDatetime
  | exifMoveFail
deriving DecidableEq, Repr

/-- The whole observable state of one run: the filesystem, the two output
channels, and the accumulated system-call trace. -/
structure World where
  fs : FS
  stdoutLines : List String
  stderrLines : List LogLine
  events : List FsEvent
deriving DecidableEq, Repr

/-- The transfer step of `moveOrRename`, before its error handling: with
`del`, try `os.Rename`, falling back to `moveFilebyCopy` on failure;
without `del`, always `moveFilebyCopy`. -/
def moveOrRenameRes (del xdev : Bool) (cwd source dest : String) (fs : FS) :
    FS × List FsEvent × Option String :=
  if del then
    match osRename xdev fs source dest with
    | Except.ok fs1 => (fs1, [FsEvent.rename source dest], none)
    | Except.error _ => moveFilebyCopy del cwd source dest fs
  else moveFilebyCopy del cwd source dest fs

/-- `moveOrRename` (`tsrename.go` lines 166-182): perform the transfer
step; a failure is logged with `[move]` and `nil` is returned; otherwise
the (nil) error is returned. -/
def moveOrRename (del xdev : Bool) (cwd source dest : String) (w : World) :
    World × Option String :=
  let res := moveOrRenameRes del xdev cwd source dest w.fs
  let w' := { w with fs := res.1, events := w.events ++ res.2.1 }
  match res.2.2 with
  | some e => ({ w' with stderrLines := w'.stderrLines ++ [LogLine.move e] }, none)
  | none => (w', none)

/-- A timestamp-resolution strategy as the visitor consumes it: from the
filesystem and the file path, a resolved date-time or an error, plus the
diagnostics the strategy itself logged. -/
def DtFunc : Type := FS → String → Except TsErr DateTime × List LogLine

/-- The filename-pattern strategy wrapped as a `DtFunc` (it reads nothing
and logs nothing). -/
def getTimeFromFileTimestampD : DtFunc :=
  fun _ thisFile => (getTimeFromFileTimestamp thisFile, [])

/-- The sidecar JSON record (`ExifFromJSON` in the source). -/
structure ExifFromJSON where
  DateTime : String
  DateTimeOriginal : String
  DateTimeDigitized : String
deriving DecidableEq, Repr

/-- `getTimeFromExif` (`tsrename.go` lines 86-130), parameterized by the
two external library capabilities: `unmarshal` models `json.Unmarshal`
into an `ExifFromJSON` (none on malformed input, in which case the Go
record keeps its zero value), and `exifDateTime` models the
`exif.Decode` / `Get(DateTime)` / `StringVal` chain on the file's
contents (none collapses its three failure points).  When the sidecar
`thisFile + ".json"` exists it is used; read and unmarshal failures are
logged and fall through to parsing the (empty) `DateTime` field; only
when no sidecar exists is the file's embedded metadata read. -/
def getTimeFromExif (unmarshal : String → Option ExifFromJSON)
    (exifDateTime : String → Option String) (fs : FS) (thisFile : String) :
    Except TsErr DateTime × List LogLine :=
  if fs.statOk (thisFile ++ ".json") then
    let r1 :=
      match fs.files.lookup (thisFile ++ ".json") with
      | some b => (b, ([] : List LogLine))
      | none => ("", [LogLine.jsonCantRead])
    let r2 :=
      match unmarshal r1.1 with
      | some e => (e, ([] : List LogLine))
      | none => ((⟨"", "", ""⟩ : ExifFromJSON), [LogLine.jsonCantUnmarshal])
    match timeParseDumbExif r2.1.DateTime with
    | none => (Except.error TsErr.malformed, r1.2 ++ r2.2 ++ [LogLine.parseDatetime])
    | some dt => (Except.ok dt, r1.2 ++ r2.2)
  else
    match fs.files.lookup thisFile with
    | none => (Except.error TsErr.openFailed, [])
    | some contents =>
      match exifDateTime contents with
      | none => (Except.error TsErr.decodeFailed, [])
      | some ds =>
        match timeParseDumbExif ds with
        | none => (Except.error TsErr.malformed, [LogLine.parseDatetime])
        | some dt => (Except.ok dt, [])

/-- The exif strategy wrapped as a `DtFunc`. -/
def getTimeFromExifD (unmarshal : String → Option ExifFromJSON)
    (exifDateTime : String → Option String) : DtFunc :=
  fun fs thisFile => getTimeFromExif unmarshal exifDateTime fs thisFile

/-- The process-lifetime configuration (the program's flag-set globals). -/
structure Config where
  outputDir : String
  namedOutput : String
  del : Bool
deriving DecidableEq, Repr

/-- `parseFilename` (`tsrename.go` lines 147-164): resolve the timestamp,
format the directory suffix with `tsDirStruct`, keep the original base
name unless a name was configured — in which case the name, an
underscore, the `tsForm` timestamp and the original extension — and join
everything under the output directory. -/
def parseFilename (cfg : Config) (dtf : DtFunc) (fs : FS) (thisFile : String) :
    Except TsErr String × List LogLine :=
  match dtf fs thisFile with
  | (Except.error e, logs) => (Except.error e, logs)
  | (Except.ok thisTime, logs) =>
    let formattedSubdirs := formatTsDirStruct thisTime
    let targetFilename0 := pathBase thisFile
    let targetFilename :=
      if cfg.namedOutput.length > 0 then
        cfg.namedOutput ++ "_" ++ formatTs thisTime ++ pathExt targetFilename0
      else targetFilename0
    (Except.ok (pathJoin [cfg.outputDir, formattedSubdirs, targetFilename]), logs)

/-- `visit` (`tsrename.go` lines 184-225): skip directories and `.json`
sidecars; compute the destination (logging `[parse]` failures); make the
destination's directory (logging `[mkdir]` failures); skip same-absolute-
path duplicates with `[dupe]`; transfer the file; transfer the sidecar if
one exists, logging a sidecar-transfer failure; print the destination on
standard output; return `moveOrRename`'s error. -/
def visit (cfg : Config) (xdev : Bool) (cwd : String) (dtf : DtFunc)
    (filePath : String) (isDir : Bool) (w : World) : World × Option String :=
  if isDir then (w, none)
  else if pathExt filePath = ".json" then (w, none)
  else
    match parseFilename cfg dtf w.fs filePath with
    | (Except.error e, logs) =>
      ({ w with stderrLines := w.stderrLines ++ logs ++ [LogLine.parse e] }, none)
    | (Except.ok newPath, logs) =>
      let w1 := { w with stderrLines := w.stderrLines ++ logs }
      match mkdirAll w1.fs (pathDir newPath) with
      | Except.error m =>
        ({ w1 with stderrLines := w1.stderrLines ++ [LogLine.mkdirFail m] }, none)
      | Except.ok fs1 =>
        let w2 := { w1 with fs := fs1 }
        let absSrc := absPath cwd filePath
        let absDest := absPath cwd newPath
        if absSrc = absDest then
          ({ w2 with stderrLines := w2.stderrLines ++ [LogLine.dupe absDest] }, none)
        else
          let mr := moveOrRename cfg.del xdev cwd filePath absDest w2
          let jsFile := filePath ++ ".json"
          let w4 :=
            if mr.1.fs.statOk jsFile then
              let mr2 := moveOrRename cfg.del xdev cwd jsFile (absDest ++ ".json") mr.1
              if mr2.2 ≠ none then
                { mr2.1 with stderrLines := mr2.1.stderrLines ++ [LogLine.exifMoveFail] }
              else mr2.1
            else mr.1
          ({ w4 with stdoutLines := w4.stdoutLines ++ [newPath] }, mr.2)

/-! ### Helper lemmas: digits and formatting -/

theorem digitChar_isDig (k : Nat) : isDig (digitChar k) = true := by
  unfold digitChar isDig
  have h : k % 10 < 10 := Nat.mod_lt _ (by norm_num)
  set m := k % 10 with hm
  interval_cases m <;> decide

theorem digVal_digitChar (k : Nat) : digVal (digitChar k) = k % 10 := by
  unfold digitChar digVal
  have h : k % 10 < 10 := Nat.mod_lt _ (by norm_num)
  set m := k % 10 with hm
  interval_cases m <;> decide

theorem digitChar_ne_slash (k : Nat) : digitChar k ≠ '/' := by
  unfold digitChar
  have h : k % 10 < 10 := Nat.mod_lt _ (by norm_num)
  set m := k % 10 with hm
  interval_cases m <;> decide

theorem rangeC01_digitChar (k : Nat) (h : k % 10 ≤ 1) :
    rangeC '0' '1' (digitChar k) = true := by
  unfold digitChar rangeC
  set m := k % 10 with hm
  interval_cases m <;> decide

theorem rangeC02_digitChar (k : Nat) (h : k % 10 ≤ 2) :
    rangeC '0' '2' (digitChar k) = true := by
  unfold digitChar rangeC
  set m := k % 10 with hm
  interval_cases m <;> decide

theorem rangeC03_digitChar (k : Nat) (h : k % 10 ≤ 3) :
    rangeC '0' '3' (digitChar k) = true := by
  unfold digitChar rangeC
  set m := k % 10 with hm
  interval_cases m <;> decide

theorem rangeC05_digitChar (k : Nat) (h : k % 10 ≤ 5) :
    rangeC '0' '5' (digitChar k) = true := by
  unfold digitChar rangeC
  set m := k % 10 with hm
  interval_cases m <;> decide

theorem parse2_digitChar (a b : Nat) :
    parse2 (digitChar a) (digitChar b) = some (a % 10 * 10 + b % 10) := by
  unfold parse2
  simp [digitChar_isDig, digVal_digitChar]

theorem parse4_digitChar (a b c d : Nat) :
    parse4 (digitChar a) (digitChar b) (digitChar c) (digitChar d) =
      some (a % 10 * 1000 + b % 10 * 100 + c % 10 * 10 + d % 10) := by
  unfold parse4
  simp [digitChar_isDig, digVal_digitChar]

theorem daysIn_le_31 (y m : Nat) : daysIn y m ≤ 31 := by
  unfold daysIn
  split_ifs <;> omega

theorem formatTs_data (t : DateTime) :
    (formatTs t).data =
      [digitChar (t.year / 1000), digitChar (t.year / 100), digitChar (t.year / 10),
       digitChar t.year, '_',
       digitChar (t.month / 10), digitChar t.month, '_',
       digitChar (t.day / 10), digitChar t.day, '_',
       digitChar (t.hour / 10), digitChar t.hour, '_',
       digitChar (t.minute / 10), digitChar t.minute, '_',
       digitChar (t.second / 10), digitChar t.second] := by
  simp [formatTs, pad4, pad2, String.data_append]

theorem formatTs_length (t : DateTime) : (formatTs t).length = 19 := by
  show (formatTs t).data.length = 19
  rw [formatTs_data]
  rfl

/-- The bounds `DateTime.valid` guarantees, in arithmetic form. -/
theorem valid_bounds (t : DateTime) (h : t.valid = true) :
    t.year ≤ 9999 ∧ 1 ≤ t.month ∧ t.month ≤ 12 ∧ 1 ≤ t.day ∧ t.day ≤ 31 ∧
      t.hour ≤ 23 ∧ t.minute ≤ 59 ∧ t.second ≤ 59 := by
  unfold DateTime.valid at h
  have hd := daysIn_le_31 t.year t.month
  simp only [Bool.and_eq_true, decide_eq_true_eq] at h
  omega

theorem timeParseTs_formatTs (t : DateTime) (h : t.valid = true) :
    timeParseTs (formatTs t) = some t := by
  obtain ⟨h1, h2, h3, h4, h5, h6, h7, h8⟩ := valid_bounds t h
  unfold timeParseTs
  rw [formatTs_data]
  simp only [parse4_digitChar, parse2_digitChar]
  have ey : t.year / 1000 % 10 * 1000 + t.year / 100 % 10 * 100 +
      t.year / 10 % 10 * 10 + t.year % 10 = t.year := by omega
  have emo : t.month / 10 % 10 * 10 + t.month % 10 = t.month := by omega
  have ed : t.day / 10 % 10 * 10 + t.day % 10 = t.day := by omega
  have eh : t.hour / 10 % 10 * 10 + t.hour % 10 = t.hour := by omega
  have emi : t.minute / 10 % 10 * 10 + t.minute % 10 = t.minute := by omega
  have ese : t.second / 10 % 10 * 10 + t.second % 10 = t.second := by omega
  rw [ey, emo, ed, eh, emi, ese]
  simp [h]

/-! ### Helper lemmas: pattern matching -/

theorem matchHere_length {cls : List (Char → Bool)} {l m : List Char}
    (h : matchHere cls l = some m) : m.length = cls.length := by
  induction cls generalizing l m with
  | nil => simp [matchHere] at h; simp [← h]
  | cons p ps ih =>
    cases l with
    | nil => simp [matchHere] at h
    | cons c cs =>
      unfold matchHere at h
      by_cases hp : p c
      · simp [hp] at h
        obtain ⟨m', hm', rfl⟩ := h
        simp [ih hm']
      · simp [hp] at h

theorem findFirst_of_matchHere {cls : List (Char → Bool)} {l m : List Char}
    (h : matchHere cls l = some m) : findFirst cls l = some m := by
  cases l with
  | nil => unfold findFirst; rw [h]
  | cons c cs => unfold findFirst; rw [h]

theorem findFirst_some_matchHere {cls : List (Char → Bool)} {l m : List Char}
    (h : findFirst cls l = some m) :
    ∃ i, matchHere cls (l.drop i) = some m := by
  induction l with
  | nil =>
    unfold findFirst at h
    cases hm : matchHere cls [] with
    | none => rw [hm] at h; exact absurd h (by simp)
    | some m' => rw [hm] at h; exact ⟨0, by simpa [hm] using h⟩
  | cons c cs ih =>
    unfold findFirst at h
    cases hm : matchHere cls (c :: cs) with
    | some m' =>
      rw [hm] at h
      exact ⟨0, by simpa [hm] using h⟩
    | none =>
      rw [hm] at h
      obtain ⟨i, hi⟩ := ih h
      exact ⟨i + 1, hi⟩

theorem findFirst_append_none {cls : List (Char → Bool)} (pre rest : List Char)
    (h : ∀ i, i < pre.length → matchHere cls ((pre ++ rest).drop i) = none) :
    findFirst cls (pre ++ rest) = findFirst cls rest := by
  induction pre with
  | nil => rfl
  | cons c pre' ih =>
    have h0 : matchHere cls (c :: (pre' ++ rest)) = none := by
      have := h 0 (by simp)
      simpa using this
    have hrec : findFirst cls (pre' ++ rest) = findFirst cls rest := by
      apply ih
      intro i hi
      have := h (i + 1) (by simp; omega)
      simpa using this
    show findFirst cls (c :: (pre' ++ rest)) = findFirst cls rest
    conv_lhs => unfold findFirst
    rw [h0]
    exact hrec

/-- The formatted timestamp of a valid date-time matches the restricted
pattern at the head of any continuation. -/
theorem matchHere_formatTs (t : DateTime) (h : t.valid = true) (rest : List Char) :
    matchHere tsCls ((formatTs t).data ++ rest) = some (formatTs t).data := by
  obtain ⟨h1, h2, h3, h4, h5, h6, h7, h8⟩ := valid_bounds t h
  have c1 : rangeC '0' '1' (digitChar (t.month / 10)) = true :=
    rangeC01_digitChar _ (by omega)
  have c2 : rangeC '0' '3' (digitChar (t.day / 10)) = true :=
    rangeC03_digitChar _ (by omega)
  have c3 : rangeC '0' '2' (digitChar (t.hour / 10)) = true :=
    rangeC02_digitChar _ (by omega)
  have c4 : rangeC '0' '5' (digitChar (t.minute / 10)) = true :=
    rangeC05_digitChar _ (by omega)
  have c5 : rangeC '0' '5' (digitChar (t.second / 10)) = true :=
    rangeC05_digitChar _ (by omega)
  rw [formatTs_data]
  simp [tsCls, matchHere, digitChar_isDig, c1, c2, c3, c4, c5]

/-! ### Helper lemmas: path splitting and cleaning -/

theorem mk_data (s : String) : String.mk s.data = s := rfl

theorem splitSlash_ne_nil (l : List Char) : splitSlash l ≠ [] := by
  induction l with
  | nil => simp [splitSlash]
  | cons c rest ih =>
    unfold splitSlash
    by_cases hc : c = '/'
    · simp [hc]
    · simp only [hc, if_false]
      rcases hr : splitSlash rest with _ | ⟨g, gs⟩ <;> simp

theorem splitSlash_append (xs ys : List Char) :
    splitSlash (xs ++ '/' :: ys) = splitSlash xs ++ splitSlash ys := by
  induction xs with
  | nil => rfl
  | cons c xs' ih =>
    by_cases hc : c = '/'
    · subst hc
      have l1 : splitSlash ('/' :: (xs' ++ '/' :: ys)) =
          [] :: splitSlash (xs' ++ '/' :: ys) := rfl
      have l2 : splitSlash ('/' :: xs') = [] :: splitSlash xs' := rfl
      show splitSlash ('/' :: (xs' ++ '/' :: ys)) = splitSlash ('/' :: xs') ++ splitSlash ys
      rw [l1, l2, ih]
      rfl
    · show splitSlash (c :: (xs' ++ '/' :: ys)) = splitSlash (c :: xs') ++ splitSlash ys
      have l1 : splitSlash (c :: (xs' ++ '/' :: ys)) =
          match splitSlash (xs' ++ '/' :: ys) with
          | [] => [[c]]
          | g :: gs => (c :: g) :: gs := by
        conv_lhs => unfold splitSlash
        rw [if_neg hc]
      have l2 : splitSlash (c :: xs') =
          match splitSlash xs' with
          | [] => [[c]]
          | g :: gs => (c :: g) :: gs := by
        conv_lhs => unfold splitSlash
        rw [if_neg hc]
      rcases hg : splitSlash xs' with _ | ⟨g, gs⟩
      · exact absurd hg (splitSlash_ne_nil xs')
      · rw [l1, l2, ih, hg]
        rfl

theorem splitSlash_no_slash {l : List Char} (h : '/' ∉ l) : splitSlash l = [l] := by
  induction l with
  | nil => rfl
  | cons c rest ih =>
    have hc : c ≠ '/' := fun hcc => h (hcc ▸ List.mem_cons_self c rest)
    have hr : '/' ∉ rest := fun hrr => h (List.mem_cons_of_mem c hrr)
    have l1 : splitSlash (c :: rest) =
        match splitSlash rest with
        | [] => [[c]]
        | g :: gs => (c :: g) :: gs := by
      conv_lhs => unfold splitSlash
      rw [if_neg hc]
    rw [l1, ih hr]

theorem mem_splitSlash_no_slash {l : List Char} :
    ∀ m ∈ splitSlash l, '/' ∉ m := by
  induction l with
  | nil => intro m hm; simp [splitSlash] at hm; simp [hm]
  | cons c rest ih =>
    intro m hm
    unfold splitSlash at hm
    by_cases hc : c = '/'
    · simp only [hc, if_true, if_pos rfl] at hm
      rcases List.mem_cons.mp hm with h | h
      · simp [h]
      · exact ih m h
    · simp only [hc, if_false] at hm
      rcases hg : splitSlash rest with _ | ⟨g, gs⟩
      · exact absurd hg (splitSlash_ne_nil rest)
      · rw [hg] at hm
        rcases List.mem_cons.mp hm with h | h
        · subst h
          intro hmem
          rcases List.mem_cons.mp hmem with h' | h'
          · exact hc h'.symm
          · exact ih g (by rw [hg]; exact List.mem_cons_self g gs) h'
        · exact ih m (by rw [hg]; exact List.mem_cons_of_mem g h)

theorem cleanStep_push (r : Bool) (st : List String) {c : String} (h : c ≠ "..") :
    cleanStep r st c = c :: st := by
  unfold cleanStep
  simp [h]

theorem mem_cleanStep {r : Bool} {st : List String} {c x : String}
    (h : x ∈ cleanStep r st c) : x = c ∨ x ∈ st ∨ x = ".." := by
  by_cases hc : c = ".."
  · subst hc
    unfold cleanStep at h
    rw [if_pos rfl] at h
    rcases st with _ | ⟨y, rest⟩
    · rcases r with _ | _ <;> simp_all
    · by_cases hy : y = ".."
      · rw [show (match (y :: rest : List String) with
            | [] => if r = true then [] else [".."]
            | x :: rest => if x = ".." then ".." :: x :: rest else rest) =
            (if y = ".." then ".." :: y :: rest else rest) from rfl,
          if_pos hy] at h
        rcases List.mem_cons.mp h with h' | h'
        · exact Or.inl h'
        · exact Or.inr (Or.inl h')
      · rw [show (match (y :: rest : List String) with
            | [] => if r = true then [] else [".."]
            | x :: rest => if x = ".." then ".." :: x :: rest else rest) =
            (if y = ".." then ".." :: y :: rest else rest) from rfl,
          if_neg hy] at h
        exact Or.inr (Or.inl (List.mem_cons_of_mem y h))
  · rw [cleanStep_push r st hc] at h
    rcases List.mem_cons.mp h with h' | h'
    · exact Or.inl h'
    · exact Or.inr (Or.inl h')

theorem mem_foldl_cleanStep {r : Bool} :
    ∀ (cs : List String) (st : List String) (x : String),
      x ∈ cs.foldl (cleanStep r) st → x ∈ st ∨ x ∈ cs ∨ x = ".." := by
  intro cs
  induction cs with
  | nil => intro st x h; exact Or.inl h
  | cons c cs' ih =>
    intro st x h
    rcases ih (cleanStep r st c) x h with h' | h' | h'
    · rcases mem_cleanStep h' with h'' | h'' | h''
      · exact Or.inr (Or.inl (h'' ▸ List.mem_cons_self c cs'))
      · exact Or.inl h''
      · exact Or.inr (Or.inr h'')
    · exact Or.inr (Or.inl (List.mem_cons_of_mem c h'))
    · exact Or.inr (Or.inr h')

theorem splitSlash_joinParts :
    ∀ (parts : List String), (∀ x ∈ parts, '/' ∉ x.data) → parts ≠ [] →
      splitSlash (joinParts parts).data = parts.map String.data := by
  intro parts
  induction parts with
  | nil => intro _ h; exact absurd rfl h
  | cons x rest ih =>
    intro hs _
    rcases rest with _ | ⟨y, rest'⟩
    · show splitSlash x.data = [x.data]
      exact splitSlash_no_slash (hs x (List.mem_cons_self x []))
    · show splitSlash (x ++ "/" ++ joinParts (y :: rest')).data = _
      have hdata : (x ++ "/" ++ joinParts (y :: rest')).data =
          x.data ++ '/' :: (joinParts (y :: rest')).data := by
        simp [String.data_append]
      rw [hdata, splitSlash_append,
        splitSlash_no_slash (hs x (List.mem_cons_self x (y :: rest'))),
        ih (fun z hz => hs z (List.mem_cons_of_mem x hz)) (by simp)]
      simp

theorem joinParts_ne_empty :
    ∀ (parts : List String), (∀ x ∈ parts, x ≠ "") → parts ≠ [] →
      joinParts parts ≠ "" := by
  intro parts
  induction parts with
  | nil => intro _ h; exact absurd rfl h
  | cons x rest _
  =>
    intro hs _
    rcases rest with _ | ⟨y, rest'⟩
    · exact hs x (List.mem_cons_self x [])
    · show x ++ "/" ++ joinParts (y :: rest') ≠ ""
      intro hcontra
      have hd := congrArg String.data hcontra
      simp [String.data_append] at hd

/-! ### Helper lemmas: the formatted directory components -/

theorem fY_data (t : DateTime) :
    (fY t).data = [digitChar (t.year / 1000), digitChar (t.year / 100),
      digitChar (t.year / 10), digitChar t.year] := rfl

theorem fYM_data (t : DateTime) :
    (fYM t).data = [digitChar (t.year / 1000), digitChar (t.year / 100),
      digitChar (t.year / 10), digitChar t.year, '_',
      digitChar (t.month / 10), digitChar t.month] := by
  simp [fYM, pad4, pad2, String.data_append]

theorem fYMD_data (t : DateTime) :
    (fYMD t).data = [digitChar (t.year / 1000), digitChar (t.year / 100),
      digitChar (t.year / 10), digitChar t.year, '_',
      digitChar (t.month / 10), digitChar t.month, '_',
      digitChar (t.day / 10), digitChar t.day] := by
  simp [fYMD, fYM, pad4, pad2, String.data_append]

theorem fYMDH_data (t : DateTime) :
    (fYMDH t).data = [digitChar (t.year / 1000), digitChar (t.year / 100),
      digitChar (t.year / 10), digitChar t.year, '_',
      digitChar (t.month / 10), digitChar t.month, '_',
      digitChar (t.day / 10), digitChar t.day, '_',
      digitChar (t.hour / 10), digitChar t.hour] := by
  simp [fYMDH, fYMD, fYM, pad4, pad2, String.data_append]

theorem ne_of_data_ne {s u : String} (h : s.data ≠ u.data) : s ≠ u :=
  fun he => h (he ▸ rfl)

theorem digitChar_ne_dot (k : Nat) : digitChar k ≠ '.' := by
  unfold digitChar
  have h : k % 10 < 10 := Nat.mod_lt _ (by norm_num)
  set m := k % 10 with hm
  interval_cases m <;> decide

/-- The four directory components are normal path elements: non-empty, not
`"."`, not `".."`, and slash-free. -/
theorem dirComponent_props (t : DateTime) :
    (fY t ≠ "" ∧ fY t ≠ "." ∧ fY t ≠ ".." ∧ '/' ∉ (fY t).data) ∧
    (fYM t ≠ "" ∧ fYM t ≠ "." ∧ fYM t ≠ ".." ∧ '/' ∉ (fYM t).data) ∧
    (fYMD t ≠ "" ∧ fYMD t ≠ "." ∧ fYMD t ≠ ".." ∧ '/' ∉ (fYMD t).data) ∧
    (fYMDH t ≠ "" ∧ fYMDH t ≠ "." ∧ fYMDH t ≠ ".." ∧ '/' ∉ (fYMDH t).data) := by
  refine ⟨⟨?_, ?_, ?_, ?_⟩, ⟨?_, ?_, ?_, ?_⟩, ⟨?_, ?_, ?_, ?_⟩, ⟨?_, ?_, ?_, ?_⟩⟩ <;>
    first
    | (apply ne_of_data_ne
       rw [show ("" : String).data = [] from rfl]
       first
        | rw [fY_data]
        | rw [fYM_data]
        | rw [fYMD_data]
        | rw [fYMDH_data]
       simp)
    | (apply ne_of_data_ne
       rw [show ("." : String).data = ['.'] from rfl]
       first
        | rw [fY_data]
        | rw [fYM_data]
        | rw [fYMD_data]
        | rw [fYMDH_data]
       simp [digitChar_ne_dot])
    | (apply ne_of_data_ne
       rw [show (".." : String).data = ['.', '.'] from rfl]
       first
        | rw [fY_data]
        | rw [fYM_data]
        | rw [fYMD_data]
        | rw [fYMDH_data]
       simp [digitChar_ne_dot])
    | (first
        | rw [fY_data]
        | rw [fYM_data]
        | rw [fYMD_data]
        | rw [fYMDH_data]
       simp [fun k => Ne.symm (digitChar_ne_slash k)])

theorem formatTsDirStruct_data (t : DateTime) :
    (formatTsDirStruct t).data =
      (fY t).data ++ '/' :: ((fYM t).data ++ '/' :: ((fYMD t).data ++ '/' ::
        ((fYMDH t).data ++ '/' :: ([] : List Char)))) := by
  simp [formatTsDirStruct, String.data_append]

/-! ### Helper lemmas: base names, extensions and membership facts -/

theorem dropWhile_head_false {p : Char → Bool} :
    ∀ (l : List Char) (a : Char) (rest : List Char),
      l.dropWhile p = a :: rest → p a = false := by
  intro l
  induction l with
  | nil => intro a rest h; simp [List.dropWhile] at h
  | cons c l' ih =>
    intro a rest h
    rw [List.dropWhile_cons] at h
    by_cases hc : p c
    · rw [if_pos hc] at h
      exact ih a rest h
    · rw [if_neg hc] at h
      injection h with h1 _
      subst h1
      simpa using hc

theorem mem_takeWhile_props {p : Char → Bool} :
    ∀ (l : List Char) (x : Char), x ∈ l.takeWhile p → p x = true ∧ x ∈ l := by
  intro l
  induction l with
  | nil => intro x hx; simp [List.takeWhile] at hx
  | cons c l' ih =>
    intro x hx
    rw [List.takeWhile_cons] at hx
    by_cases hc : p c
    · rw [if_pos hc] at hx
      rcases List.mem_cons.mp hx with h | h
      · exact ⟨h ▸ hc, h ▸ List.mem_cons_self c l'⟩
      · obtain ⟨h1, h2⟩ := ih x h
        exact ⟨h1, List.mem_cons_of_mem c h2⟩
    · rw [if_neg hc] at hx
      simp at hx

theorem pathBase_ne_empty (s : String) : pathBase s ≠ "" := by
  unfold pathBase
  by_cases hs : s = ""
  · rw [if_pos hs]; decide
  · rw [if_neg hs]
    rcases hl : s.data.reverse.dropWhile (fun c => c = '/') with _ | ⟨a, rest⟩
    · simp [hl]
    · simp only [hl]
      rw [if_neg (by simp)]
      apply ne_of_data_ne
      have ha : (fun c => decide (c = '/')) a = false := dropWhile_head_false _ _ _ hl
      have ha' : a ≠ '/' := by simpa using ha
      rw [List.takeWhile_cons, if_pos (by simpa using ha')]
      simp

theorem pathBase_no_slash (s : String) (h : pathBase s ≠ "/") :
    '/' ∉ (pathBase s).data := by
  unfold pathBase at h ⊢
  by_cases hs : s = ""
  · rw [if_pos hs]; decide
  · rw [if_neg hs] at h ⊢
    rcases hl : s.data.reverse.dropWhile (fun c => c = '/') with _ | ⟨a, rest⟩
    · rw [hl] at h
      simp at h
    · simp only [hl]
      rw [if_neg (by simp)]
      intro hmem
      rw [show (String.mk ((List.takeWhile (fun c => c ≠ '/') (a :: rest)).reverse)).data =
          (List.takeWhile (fun c => c ≠ '/') (a :: rest)).reverse from rfl] at hmem
      rw [List.mem_reverse] at hmem
      have := (mem_takeWhile_props _ _ hmem).1
      simp at this

theorem pathExt_no_slash (s : String) : '/' ∉ (pathExt s).data := by
  unfold pathExt
  by_cases hc : (s.data.reverse.takeWhile (fun c => c ≠ '/')).contains '.'
  · rw [if_pos hc]
    intro hmem
    rw [show (String.mk (((s.data.reverse.takeWhile (fun c => c ≠ '/')).takeWhile
        (fun c => c ≠ '.') ++ ['.']).reverse)).data =
        ((s.data.reverse.takeWhile (fun c => c ≠ '/')).takeWhile
        (fun c => c ≠ '.') ++ ['.']).reverse from rfl] at hmem
    rw [List.mem_reverse, List.mem_append] at hmem
    rcases hmem with h | h
    · have h2 := (mem_takeWhile_props _ _ h).2
      have := (mem_takeWhile_props _ _ h2).1
      simp at this
    · simp at h
  · rw [if_neg hc]
    decide

theorem mem_rawParts {s : String} :
    ∀ x ∈ rawParts s, x ≠ "" ∧ x ≠ "." ∧ '/' ∉ x.data := by
  intro x hx
  unfold rawParts at hx
  rw [List.mem_filter] at hx
  obtain ⟨hmem, hgood⟩ := hx
  rw [List.mem_map] at hmem
  obtain ⟨l, hl, rfl⟩ := hmem
  have hns := mem_splitSlash_no_slash l hl
  simp only [Bool.and_eq_true, decide_eq_true_eq] at hgood
  exact ⟨hgood.1, hgood.2, hns⟩

/-! ### Helper lemmas: components of a cleaned join -/

theorem foldl_push_all (r : Bool) :
    ∀ (l : List String) (st : List String), (∀ x ∈ l, x ≠ "..") →
      List.foldl (cleanStep r) st l = l.reverse ++ st := by
  intro l
  induction l with
  | nil => intro st _; rfl
  | cons a l' ih =>
    intro st h
    rw [List.foldl_cons, cleanStep_push r st (h a (List.mem_cons_self a l')),
      ih (a :: st) (fun x hx => h x (List.mem_cons_of_mem a hx))]
    simp

/-- The components of `pathClean j`, when the raw parts of `j` end in a
run of normal (non-empty, non-dot-dot, slash-free) components: cleaning
preserves that run as the final components. -/
theorem pathClean_components (j : String) (hne : j ≠ "")
    (P five : List String)
    (hraw : rawParts j = P ++ five)
    (hP : ∀ x ∈ P, x ≠ "" ∧ '/' ∉ x.data)
    (hfive : ∀ x ∈ five, (x ≠ "" ∧ x ≠ "..") ∧ '/' ∉ x.data)
    (hfive_ne : five ≠ []) :
    ∃ pre, pathComponents (pathClean j) = pre ++ five := by
  have key : ∀ r : Bool, cleanParts r (rawParts j) =
      (List.foldl (cleanStep r) [] P).reverse ++ five := by
    intro r
    unfold cleanParts
    rw [hraw, List.foldl_append,
      foldl_push_all r five _ (fun x hx => (hfive x hx).1.2),
      List.reverse_append, List.reverse_reverse]
  have hSmem : ∀ (r : Bool) (x : String),
      x ∈ (List.foldl (cleanStep r) [] P).reverse → x ≠ "" ∧ '/' ∉ x.data := by
    intro r x hx
    rw [List.mem_reverse] at hx
    rcases mem_foldl_cleanStep P [] x hx with h | h | h
    · simp at h
    · exact hP x h
    · subst h
      refine ⟨by decide, by decide⟩
  have hpartsprops : ∀ (r : Bool) (x : String),
      x ∈ cleanParts r (rawParts j) → x ≠ "" ∧ '/' ∉ x.data := by
    intro r x hx
    rw [key r, List.mem_append] at hx
    rcases hx with h | h
    · exact hSmem r x h
    · exact ⟨(hfive x h).1.1, (hfive x h).2⟩
  have hparts_ne : ∀ r : Bool, cleanParts r (rawParts j) ≠ [] := by
    intro r hcontra
    rw [key r] at hcontra
    exact hfive_ne (List.append_eq_nil.mp hcontra).2
  have hout_ne : ∀ r : Bool, joinParts (cleanParts r (rawParts j)) ≠ "" := by
    intro r
    exact joinParts_ne_empty _ (fun x hx => (hpartsprops r x hx).1) (hparts_ne r)
  have hcomp_out : ∀ r : Bool,
      pathComponents (joinParts (cleanParts r (rawParts j))) =
        cleanParts r (rawParts j) := by
    intro r
    unfold pathComponents
    rw [splitSlash_joinParts _ (fun x hx => (hpartsprops r x hx).2) (hparts_ne r),
      List.map_map]
    have hfunid : (String.mk ∘ String.data) = id := funext fun u => rfl
    rw [hfunid, List.map_id]
    apply List.filter_eq_self.mpr
    intro a ha
    simpa using (hpartsprops r a ha).1
  unfold pathClean
  rw [if_neg hne]
  by_cases hr : isRooted j
  · rw [if_pos hr]
    refine ⟨(List.foldl (cleanStep true) [] P).reverse, ?_⟩
    have hdata : ("/" ++ joinParts (cleanParts true (rawParts j))).data =
        '/' :: (joinParts (cleanParts true (rawParts j))).data := by
      rw [String.data_append]
      rfl
    unfold pathComponents
    rw [hdata,
      show splitSlash ('/' :: (joinParts (cleanParts true (rawParts j))).data) =
        [] :: splitSlash (joinParts (cleanParts true (rawParts j))).data from rfl]
    rw [List.map_cons, List.filter_cons]
    rw [if_neg (by simp)]
    have := hcomp_out true
    unfold pathComponents at this
    rw [this, key true]
  · rw [if_neg hr, if_neg (hout_ne false)]
    refine ⟨(List.foldl (cleanStep false) [] P).reverse, ?_⟩
    rw [hcomp_out false, key false]

theorem splitSlash_cons_slash (l : List Char) :
    splitSlash ('/' :: l) = [] :: splitSlash l := rfl

/-- The destination path computed by `parseFilename` decomposes, after
`path.Join`'s cleaning, into the output directory's cleaned components
followed by exactly the four timestamp directories and the filename. -/
theorem pathJoin_dir_components (o : String) (t : DateTime) (fn : String)
    (hfn0 : fn ≠ "") (hfn1 : fn ≠ ".") (hfn2 : fn ≠ "..") (hfns : '/' ∉ fn.data) :
    ∃ pre, pathComponents (pathJoin [o, formatTsDirStruct t, fn]) =
      pre ++ [fY t, fYM t, fYMD t, fYMDH t, fn] := by
  obtain ⟨⟨hY0, hY1, hY2, hYs⟩, ⟨hM0, hM1, hM2, hMs⟩,
    ⟨hD0, hD1, hD2, hDs⟩, ⟨hH0, hH1, hH2, hHs⟩⟩ := dirComponent_props t
  have hsd0 : formatTsDirStruct t ≠ "" := by
    apply ne_of_data_ne
    rw [formatTsDirStruct_data, fY_data]
    simp
  have hfive : ∀ x ∈ [fY t, fYM t, fYMD t, fYMDH t, fn],
      (x ≠ "" ∧ x ≠ "..") ∧ '/' ∉ x.data := by
    intro x hx
    simp only [List.mem_cons, List.not_mem_nil, or_false] at hx
    rcases hx with rfl | rfl | rfl | rfl | rfl
    exacts [⟨⟨hY0, hY2⟩, hYs⟩, ⟨⟨hM0, hM2⟩, hMs⟩, ⟨⟨hD0, hD2⟩, hDs⟩,
      ⟨⟨hH0, hH2⟩, hHs⟩, ⟨⟨hfn0, hfn2⟩, hfns⟩]
  by_cases ho : o = ""
  · -- the output directory element is dropped by Join
    have hfilter : ([o, formatTsDirStruct t, fn].filter (fun e => e ≠ "")) =
        [formatTsDirStruct t, fn] := by
      simp [List.filter, ho, hsd0, hfn0]
    have hjp : joinParts ([o, formatTsDirStruct t, fn].filter (fun e => e ≠ "")) =
        formatTsDirStruct t ++ "/" ++ fn := by rw [hfilter]; rfl
    have hjdata : (formatTsDirStruct t ++ "/" ++ fn).data =
        (fY t).data ++ '/' :: ((fYM t).data ++ '/' :: ((fYMD t).data ++ '/' ::
          ((fYMDH t).data ++ '/' :: ('/' :: fn.data)))) := by
      simp only [String.data_append, formatTsDirStruct_data,
        show ("/" : String).data = ['/'] from rfl,
        List.append_assoc, List.cons_append, List.singleton_append, List.nil_append]
    have hjoined_ne : formatTsDirStruct t ++ "/" ++ fn ≠ "" := by
      apply ne_of_data_ne
      rw [hjdata, fY_data]
      simp
    have hsplit : splitSlash (formatTsDirStruct t ++ "/" ++ fn).data =
        [(fY t).data] ++ [(fYM t).data] ++ [(fYMD t).data] ++ [(fYMDH t).data] ++
          ([] :: [fn.data]) := by
      rw [hjdata, splitSlash_append, splitSlash_append, splitSlash_append,
        splitSlash_append, splitSlash_cons_slash,
        splitSlash_no_slash hYs, splitSlash_no_slash hMs, splitSlash_no_slash hDs,
        splitSlash_no_slash hHs, splitSlash_no_slash hfns]
      simp
    have hraw : rawParts (formatTsDirStruct t ++ "/" ++ fn) =
        [] ++ [fY t, fYM t, fYMD t, fYMDH t, fn] := by
      unfold rawParts
      rw [hsplit]
      simp only [List.append_assoc, List.cons_append, List.nil_append,
        List.map_cons, List.map_nil, List.filter_cons, List.filter_nil]
      rw [mk_data, mk_data, mk_data, mk_data, mk_data]
      simp [hY0, hY1, hM0, hM1, hD0, hD1, hH0, hH1, hfn0, hfn1]
    unfold pathJoin
    rw [hjp, if_neg hjoined_ne]
    exact pathClean_components _ hjoined_ne [] _ hraw (by simp) hfive (by simp)
  · have hfilter : ([o, formatTsDirStruct t, fn].filter (fun e => e ≠ "")) =
        [o, formatTsDirStruct t, fn] := by
      simp [List.filter, ho, hsd0, hfn0]
    have hjp : joinParts ([o, formatTsDirStruct t, fn].filter (fun e => e ≠ "")) =
        o ++ "/" ++ (formatTsDirStruct t ++ "/" ++ fn) := by rw [hfilter]; rfl
    have hjdata : (o ++ "/" ++ (formatTsDirStruct t ++ "/" ++ fn)).data =
        o.data ++ '/' :: ((fY t).data ++ '/' :: ((fYM t).data ++ '/' ::
          ((fYMD t).data ++ '/' :: ((fYMDH t).data ++ '/' :: ('/' :: fn.data))))) := by
      simp only [String.data_append, formatTsDirStruct_data,
        show ("/" : String).data = ['/'] from rfl,
        List.append_assoc, List.cons_append, List.singleton_append, List.nil_append]
    have hjoined_ne : o ++ "/" ++ (formatTsDirStruct t ++ "/" ++ fn) ≠ "" := by
      apply ne_of_data_ne
      rw [hjdata]
      simp
    have hsplit : splitSlash (o ++ "/" ++ (formatTsDirStruct t ++ "/" ++ fn)).data =
        splitSlash o.data ++ ([(fY t).data] ++ [(fYM t).data] ++ [(fYMD t).data] ++
          [(fYMDH t).data] ++ ([] :: [fn.data])) := by
      rw [hjdata, splitSlash_append, splitSlash_append, splitSlash_append,
        splitSlash_append, splitSlash_append, splitSlash_cons_slash,
        splitSlash_no_slash hYs, splitSlash_no_slash hMs, splitSlash_no_slash hDs,
        splitSlash_no_slash hHs, splitSlash_no_slash hfns]
      simp
    have hraw : rawParts (o ++ "/" ++ (formatTsDirStruct t ++ "/" ++ fn)) =
        rawParts o ++ [fY t, fYM t, fYMD t, fYMDH t, fn] := by
      unfold rawParts
      rw [hsplit]
      rw [List.map_append, List.filter_append]
      congr 1
      simp only [List.append_assoc, List.cons_append, List.nil_append,
        List.map_cons, List.map_nil, List.filter_cons, List.filter_nil]
      rw [mk_data, mk_data, mk_data, mk_data, mk_data]
      simp [hY0, hY1, hM0, hM1, hD0, hD1, hH0, hH1, hfn0, hfn1]
    unfold pathJoin
    rw [hjp, if_neg hjoined_ne]
    exact pathClean_components _ hjoined_ne (rawParts o) _ hraw
      (fun x hx => ⟨(mem_rawParts x hx).1, (mem_rawParts x hx).2.2⟩) hfive (by simp)

theorem parseYear_fY (t : DateTime) (h : t.year ≤ 9999) :
    parseYear (fY t) = some t.year := by
  unfold parseYear
  rw [fY_data]
  simp only [parse4_digitChar]
  congr 1
  omega

theorem parseYMDH_fYMDH (t : DateTime) (h : t.valid = true) :
    parseYMDH (fYMDH t) = some (t.year, t.month, t.day, t.hour) := by
  obtain ⟨h1, h2, h3, h4, h5, h6, h7, h8⟩ := valid_bounds t h
  unfold parseYMDH
  rw [fYMDH_data]
  simp only [parse4_digitChar, parse2_digitChar]
  have ey : t.year / 1000 % 10 * 1000 + t.year / 100 % 10 * 100 +
      t.year / 10 % 10 * 10 + t.year % 10 = t.year := by omega
  have emo : t.month / 10 % 10 * 10 + t.month % 10 = t.month := by omega
  have ed : t.day / 10 % 10 * 10 + t.day % 10 = t.day := by omega
  have eh : t.hour / 10 % 10 * 10 + t.hour % 10 = t.hour := by omega
  rw [ey, emo, ed, eh]

theorem formatTs_no_slash (t : DateTime) : '/' ∉ (formatTs t).data := by
  rw [formatTs_data]
  intro h
  simp only [List.mem_cons, List.not_mem_nil, or_false] at h
  rcases h with h|h|h|h|h|h|h|h|h|h|h|h|h|h|h|h|h|h|h
  all_goals first
    | exact digitChar_ne_slash _ h.symm
    | exact absurd h (by decide)

theorem ne_of_data_length {s u : String} (h : s.data.length ≠ u.data.length) :
    s ≠ u := fun he => h (he ▸ rfl)

/-- A configured-name destination filename is a normal path element. -/
theorem named_fname_props (no : String) (t : DateTime) (ext : String)
    (hnos : '/' ∉ no.data) (hexts : '/' ∉ ext.data) :
    (no ++ "_" ++ formatTs t ++ ext) ≠ "" ∧ (no ++ "_" ++ formatTs t ++ ext) ≠ "." ∧
    (no ++ "_" ++ formatTs t ++ ext) ≠ ".." ∧
    '/' ∉ (no ++ "_" ++ formatTs t ++ ext).data := by
  have hlen : (no ++ "_" ++ formatTs t ++ ext).data.length =
      no.data.length + 1 + 19 + ext.data.length := by
    simp only [String.data_append, List.length_append]
    have : (formatTs t).data.length = 19 := by rw [formatTs_data]; rfl
    rw [this]
    rfl
  refine ⟨?_, ?_, ?_, ?_⟩
  · apply ne_of_data_length
    rw [hlen, show ("" : String).data.length = 0 from rfl]
    omega
  · apply ne_of_data_length
    rw [hlen, show ("." : String).data.length = 1 from rfl]
    omega
  · apply ne_of_data_length
    rw [hlen, show (".." : String).data.length = 2 from rfl]
    omega
  · intro hmem
    simp only [String.data_append, List.mem_append] at hmem
    rcases hmem with ((h | h) | h) | h
    · exact hnos h
    · simp at h
    · exact formatTs_no_slash t h
    · exact hexts h

/-- C1: for every source path and every successfully resolved timestamp,
the computed destination equals the output root joined with the
`YYYY/YYYY_MM/YYYY_MM_DD/YYYY_MM_DD_HH/` suffix and the claimed filename
(original base name without a configured name; `name_timestamp` plus the
original extension with one), and the destination's directory components
end in exactly the four timestamp directories, which parse back to the
timestamp's year, month, day and hour. -/
theorem parseFilename_dest_structure
    (cfg : Config) (dtf : DtFunc) (fs : FS) (thisFile : String) (t : DateTime)
    (logs : List LogLine)
    (hdtf : dtf fs thisFile = (Except.ok t, logs))
    (hval : t.valid = true)
    (hb1 : pathBase thisFile ≠ ".") (hb2 : pathBase thisFile ≠ "..")
    (hb3 : pathBase thisFile ≠ "/")
    (hns : '/' ∉ cfg.namedOutput.data) :
    parseFilename cfg dtf fs thisFile =
      (Except.ok (pathJoin [cfg.outputDir, formatTsDirStruct t,
        if cfg.namedOutput = "" then pathBase thisFile
        else cfg.namedOutput ++ "_" ++ formatTs t ++ pathExt (pathBase thisFile)]),
       logs) ∧
    (∃ pre, pathComponents (pathJoin [cfg.outputDir, formatTsDirStruct t,
        if cfg.namedOutput = "" then pathBase thisFile
        else cfg.namedOutput ++ "_" ++ formatTs t ++ pathExt (pathBase thisFile)]) =
      pre ++ [fY t, fYM t, fYMD t, fYMDH t,
        if cfg.namedOutput = "" then pathBase thisFile
        else cfg.namedOutput ++ "_" ++ formatTs t ++ pathExt (pathBase thisFile)]) ∧
    parseYear (fY t) = some t.year ∧
    parseYMDH (fYMDH t) = some (t.year, t.month, t.day, t.hour) := by
  have hy9999 : t.year ≤ 9999 := (valid_bounds t hval).1
  refine ⟨?_, ?_, parseYear_fY t hy9999, parseYMDH_fYMDH t hval⟩
  · unfold parseFilename
    rw [hdtf]
    show (Except.ok (pathJoin [cfg.outputDir, formatTsDirStruct t,
        if cfg.namedOutput.length > 0 then
          cfg.namedOutput ++ "_" ++ formatTs t ++ pathExt (pathBase thisFile)
        else pathBase thisFile]), logs) = _
    by_cases hn : cfg.namedOutput = ""
    · rw [if_neg (by rw [hn]; decide), if_pos hn]
    · have hpos : cfg.namedOutput.length > 0 := by
        have hd : cfg.namedOutput.data ≠ [] := fun hc => hn (String.ext hc)
        exact List.length_pos.mpr hd
      rw [if_pos hpos, if_neg hn]
  · by_cases hn : cfg.namedOutput = ""
    · rw [if_pos hn]
      exact pathJoin_dir_components cfg.outputDir t (pathBase thisFile)
        (pathBase_ne_empty thisFile) hb1 hb2 (pathBase_no_slash thisFile hb3)
    · rw [if_neg hn]
      obtain ⟨p0, p1, p2, p3⟩ := named_fname_props cfg.namedOutput t
        (pathExt (pathBase thisFile)) hns (pathExt_no_slash (pathBase thisFile))
      exact pathJoin_dir_components cfg.outputDir t _ p0 p1 p2 p3

/-- Witness for C1 at the spec's scenario input. -/
theorem parseFilename_dest_structure_witness :
    (parseFilename ⟨"out", "", false⟩ getTimeFromFileTimestampD ⟨[], []⟩
      "IMG_2021_06_15_10_30_00.jpg").1 =
      Except.ok "out/2021/2021_06/2021_06_15/2021_06_15_10/IMG_2021_06_15_10_30_00.jpg" := by
  have h := parseFilename_dest_structure ⟨"out", "", false⟩ getTimeFromFileTimestampD
    ⟨[], []⟩ "IMG_2021_06_15_10_30_00.jpg" ⟨2021, 6, 15, 10, 30, 0⟩ []
    (by rfl) (by decide) (by decide) (by decide) (by decide) (by decide)
  rw [congrArg Prod.fst h.1]
  rfl

/-- C2 counterexample: the claim fails as stated — extraction takes the
first match in the path, so surrounding text containing an earlier match
of the pattern changes the result.  Here the path embeds the formatted
timestamp 2021-06-15 10:30:00, yet extraction returns 2000-01-01
00:00:00 from the surrounding text. -/
theorem extract_roundtrip_counterexample :
    getTimeFromFileTimestamp
        ("2000_01_01_00_00_00_" ++ formatTs ⟨2021, 6, 15, 10, 30, 0⟩ ++ ".jpg") =
      Except.ok ⟨2000, 1, 1, 0, 0, 0⟩ ∧
    (⟨2000, 1, 1, 0, 0, 0⟩ : DateTime) ≠ ⟨2021, 6, 15, 10, 30, 0⟩ := by
  exact ⟨by rfl, by decide⟩

/-- C2 (amended): for every valid date-time embedded in a path, extraction
recovers exactly that date-time provided no match of the digit pattern
starts before the embedded timestamp. -/
theorem extract_roundtrip_first_match (bef aft : String) (t : DateTime)
    (hval : t.valid = true)
    (hpre : ∀ i, i < bef.data.length →
      matchHere tsCls ((bef.data ++ ((formatTs t).data ++ aft.data)).drop i) = none) :
    getTimeFromFileTimestamp (bef ++ formatTs t ++ aft) = Except.ok t := by
  have hdata : (bef ++ formatTs t ++ aft).data =
      bef.data ++ ((formatTs t).data ++ aft.data) := by
    simp [String.data_append]
  unfold getTimeFromFileTimestamp tsFindString
  rw [hdata, findFirst_append_none bef.data ((formatTs t).data ++ aft.data) hpre,
    findFirst_of_matchHere (matchHere_formatTs t hval aft.data)]
  rw [show (match some (formatTs t).data with
      | some m => String.mk m
      | none => "") = String.mk (formatTs t).data from rfl]
  rw [mk_data]
  rw [if_neg (by rw [formatTs_length]; omega), timeParseTs_formatTs t hval]

/-- Witness for the amended C2. -/
theorem extract_roundtrip_first_match_witness :
    getTimeFromFileTimestamp ("IMG_" ++ formatTs ⟨2021, 6, 15, 10, 30, 0⟩ ++ ".jpg") =
      Except.ok ⟨2021, 6, 15, 10, 30, 0⟩ :=
  extract_roundtrip_first_match "IMG_" ".jpg" ⟨2021, 6, 15, 10, 30, 0⟩ (by decide)
    (by decide)

/-- C3 counterexample: `"x_2021_96_15_10_30_00"` contains a substring
matching the claim's structural pattern (four digits and five two-digit
groups separated by underscores, the variant's `tsRegexPattern`) that is
not a valid calendar date-time, yet the strategy fails with
`noTimestamp`, not `malformed`: the compiled pattern restricts the tens
digits, so no match is found at all. -/
theorem noTimestamp_vs_malformed_counterexample :
    (findFirst tsClsPlain ("x_2021_96_15_10_30_00").data).isSome = true ∧
    timeParseTs "2021_96_15_10_30_00" = none ∧
    getTimeFromFileTimestamp "x_2021_96_15_10_30_00" =
      Except.error TsErr.noTimestamp := by
  exact ⟨by rfl, by rfl, by rfl⟩

/-- C3 (amended): the strategy fails with `noTimestamp` exactly when no
substring matches the compiled restricted pattern (month tens `[0-1]`,
day tens `[0-3]`, hour tens `[0-2]`, minute/second tens `[0-5]`); when
the restricted pattern matches but the match is not a valid calendar
date-time the failure is `malformed`; and a valid match is returned. -/
theorem getTimeFromFileTimestamp_error_classification :
    (∀ s : String, getTimeFromFileTimestamp s = Except.error TsErr.noTimestamp ↔
      findFirst tsCls s.data = none) ∧
    (∀ (s : String) (m : List Char), findFirst tsCls s.data = some m →
      timeParseTs (String.mk m) = none →
      getTimeFromFileTimestamp s = Except.error TsErr.malformed) ∧
    (∀ (s : String) (m : List Char), findFirst tsCls s.data = some m →
      ∀ t : DateTime, timeParseTs (String.mk m) = some t →
      getTimeFromFileTimestamp s = Except.ok t) := by
  have hlen : ∀ (s : String) (m : List Char), findFirst tsCls s.data = some m →
      (String.mk m).length = 19 := by
    intro s m hm
    obtain ⟨i, hi⟩ := findFirst_some_matchHere hm
    have := matchHere_length hi
    exact this
  refine ⟨?_, ?_, ?_⟩
  · intro s
    unfold getTimeFromFileTimestamp tsFindString
    cases hf : findFirst tsCls s.data with
    | none => simp
    | some m =>
      rw [show (match some m with
          | some m => String.mk m
          | none => "") = String.mk m from rfl]
      rw [if_neg (by rw [hlen s m hf]; omega)]
      constructor
      · intro h
        cases hp : timeParseTs (String.mk m) with
        | none => rw [hp] at h; exact absurd h (by simp)
        | some t => rw [hp] at h; exact absurd h (by simp)
      · intro h
        exact absurd h (by simp)
  · intro s m hf hp
    unfold getTimeFromFileTimestamp tsFindString
    rw [hf]
    rw [show (match some m with
        | some m => String.mk m
        | none => "") = String.mk m from rfl]
    rw [if_neg (by rw [hlen s m hf]; omega), hp]
  · intro s m hf t hp
    unfold getTimeFromFileTimestamp tsFindString
    rw [hf]
    rw [show (match some m with
        | some m => String.mk m
        | none => "") = String.mk m from rfl]
    rw [if_neg (by rw [hlen s m hf]; omega), hp]

/-- Witness for the amended C3: a restricted-pattern match with an invalid
month fails with `malformed`. -/
theorem getTimeFromFileTimestamp_error_classification_witness :
    getTimeFromFileTimestamp "x_2021_13_15_10_30_00" = Except.error TsErr.malformed :=
  getTimeFromFileTimestamp_error_classification.2.1 "x_2021_13_15_10_30_00"
    ("2021_13_15_10_30_00").data (by rfl) (by rfl)

/-! ### Helper lemmas: the transfer functions -/

theorem moveOrRename_snd_none (del xdev : Bool) (cwd source dest : String) (w : World) :
    (moveOrRename del xdev cwd source dest w).2 = none := by
  simp only [moveOrRename]
  split <;> rfl

theorem moveOrRename_stdout (del xdev : Bool) (cwd source dest : String) (w : World) :
    (moveOrRename del xdev cwd source dest w).1.stdoutLines = w.stdoutLines := by
  simp only [moveOrRename]
  split <;> rfl

theorem moveOrRename_stderr (del xdev : Bool) (cwd source dest : String) (w : World) :
    (moveOrRename del xdev cwd source dest w).1.stderrLines = w.stderrLines ∨
    ∃ msg, (moveOrRename del xdev cwd source dest w).1.stderrLines =
      w.stderrLines ++ [LogLine.move msg] := by
  simp only [moveOrRename]
  split
  · rename_i e _
    exact Or.inr ⟨e, rfl⟩
  · exact Or.inl rfl

theorem moveOrRename_stderr_mem (del xdev : Bool) (cwd source dest : String)
    (w : World) {x : LogLine} (h : x ∈ w.stderrLines) :
    x ∈ (moveOrRename del xdev cwd source dest w).1.stderrLines := by
  rcases moveOrRename_stderr del xdev cwd source dest w with h1 | ⟨msg, h1⟩ <;>
    rw [h1] <;> simp [h]

theorem moveOrRename_no_exif_line (del xdev : Bool) (cwd source dest : String)
    (w : World) (h : LogLine.exifMoveFail ∉ w.stderrLines) :
    LogLine.exifMoveFail ∉ (moveOrRename del xdev cwd source dest w).1.stderrLines := by
  rcases moveOrRename_stderr del xdev cwd source dest w with h1 | ⟨msg, h1⟩ <;>
    rw [h1] <;> simp [h]

theorem parseFilename_logs (cfg : Config) (dtf : DtFunc) (fs : FS) (f : String) :
    (parseFilename cfg dtf fs f).2 = (dtf fs f).2 := by
  rcases h : dtf fs f with ⟨r, logs⟩
  cases r with
  | error e => unfold parseFilename; rw [h]
  | ok time => unfold parseFilename; rw [h]

theorem mkdirAll_ok_files {fs fs1 : FS} {d : String}
    (h : mkdirAll fs d = Except.ok fs1) : fs1.files = fs.files := by
  unfold mkdirAll at h
  by_cases hf : fs.isFile d
  · rw [if_pos hf] at h
    exact absurd h (by simp)
  · rw [if_neg hf] at h
    injection h with h1
    subst h1
    unfold FS.addDir
    by_cases hc : fs.dirs.contains d
    · rw [if_pos hc]
    · rw [if_neg hc]

/-- C7 counterexample: in a successful copy with deletion enabled, the
source-removal system call is issued strictly before the destination's
close, contradicting the claim that the source is never removed before
the destination is closed. -/
theorem remove_before_close_counterexample :
    (moveFilebyCopy true "/cw" "a.jpg" "b.jpg" ⟨[("a.jpg", "DATA")], []⟩).2.1 =
      [FsEvent.openR "a.jpg", FsEvent.create "b.jpg",
       FsEvent.copyData "a.jpg" "b.jpg", FsEvent.remove "a.jpg",
       FsEvent.closeDst "b.jpg"] ∧
    List.indexOf (FsEvent.remove "a.jpg")
        (moveFilebyCopy true "/cw" "a.jpg" "b.jpg" ⟨[("a.jpg", "DATA")], []⟩).2.1 <
      List.indexOf (FsEvent.closeDst "b.jpg")
        (moveFilebyCopy true "/cw" "a.jpg" "b.jpg" ⟨[("a.jpg", "DATA")], []⟩).2.1 := by
  exact ⟨by rfl, by decide⟩

/-- C7 (amended): in a copy transfer the source is removed only after the
data copy has fully succeeded (the transfer reports no error, and the
removal event follows the copy event); the destination's close, however,
follows the removal rather than preceding it. -/
theorem remove_only_after_successful_copy (del : Bool) (cwd src dst : String)
    (fs : FS) (p : String)
    (hmem : FsEvent.remove p ∈ (moveFilebyCopy del cwd src dst fs).2.1) :
    (moveFilebyCopy del cwd src dst fs).2.2 = none ∧
    (moveFilebyCopy del cwd src dst fs).2.1 =
      [FsEvent.openR src, FsEvent.create dst, FsEvent.copyData src dst,
       FsEvent.remove src, FsEvent.closeDst dst] := by
  unfold moveFilebyCopy at hmem ⊢
  by_cases h1 : ¬ fs.statOk src
  · rw [if_pos h1] at hmem
    simp at hmem
  · rw [if_neg h1] at hmem ⊢
    by_cases h2 : fs.isDir dst
    · rw [if_pos h2] at hmem
      simp at hmem
    · rw [if_neg h2] at hmem ⊢
      cases h3 : fs.files.lookup src with
      | none =>
        rw [h3] at hmem
        simp at hmem
      | some contents =>
        rw [h3] at hmem
        by_cases h4 : del = true
        · by_cases h5 : absPath cwd src ≠ absPath cwd dst
          · refine ⟨?_, ?_⟩ <;> simp [h4, h5]
          · simp [h4, h5] at hmem
        · simp [h4] at hmem

/-- Witness for the amended C7. -/
theorem remove_only_after_successful_copy_witness :
    (moveFilebyCopy true "/d" "x.jpg" "y.jpg" ⟨[("x.jpg", "C")], []⟩).2.2 = none ∧
    (moveFilebyCopy true "/d" "x.jpg" "y.jpg" ⟨[("x.jpg", "C")], []⟩).2.1 =
      [FsEvent.openR "x.jpg", FsEvent.create "y.jpg",
       FsEvent.copyData "x.jpg" "y.jpg", FsEvent.remove "x.jpg",
       FsEvent.closeDst "y.jpg"] :=
  remove_only_after_successful_copy true "/d" "x.jpg" "y.jpg"
    ⟨[("x.jpg", "C")], []⟩ "x.jpg" (by decide)

/-- C9: the visitor never raises an error to its caller — it returns `nil`
for every input, so a failure on one file never aborts the walk or the
stdin loop and subsequent files are still processed. -/
theorem visit_never_raises (cfg : Config) (xdev : Bool) (cwd : String)
    (dtf : DtFunc) (filePath : String) (isDir : Bool) (w : World) :
    (visit cfg xdev cwd dtf filePath isDir w).2 = none := by
  simp only [visit]
  split
  · rfl
  split
  · rfl
  split
  · rfl
  split
  · rfl
  split
  · rfl
  exact moveOrRename_snd_none _ _ _ _ _ _

/-- C10: `moveOrRename` returns `nil` for every input, including when the
underlying rename and copy both fail (the failure is logged and
discarded), so callers cannot distinguish a failed transfer from a
successful one by its return value; consequently the visitor's branch
that logs a sidecar-move failure is unreachable — the `exifMoveFail`
diagnostic is never emitted (for any strategy that does not emit it
itself). -/
theorem moveOrRename_always_nil :
    (∀ (del xdev : Bool) (cwd source dest : String) (w : World),
      (moveOrRename del xdev cwd source dest w).2 = none) ∧
    (∀ (cfg : Config) (xdev : Bool) (cwd : String) (dtf : DtFunc)
       (filePath : String) (isDir : Bool) (w : World),
      (∀ (fs : FS) (f : String), LogLine.exifMoveFail ∉ (dtf fs f).2) →
      LogLine.exifMoveFail ∉ w.stderrLines →
      LogLine.exifMoveFail ∉ (visit cfg xdev cwd dtf filePath isDir w).1.stderrLines) := by
  refine ⟨moveOrRename_snd_none, ?_⟩
  intro cfg xdev cwd dtf filePath isDir w hdtf hw
  simp only [visit]
  split
  · exact hw
  split
  · exact hw
  split
  · rename_i r e logs heq
    have hlogs : logs = (dtf w.fs filePath).2 := by
      have h2 := congrArg Prod.snd heq
      rw [parseFilename_logs] at h2
      exact h2.symm
    subst hlogs
    simp [hw, hdtf w.fs filePath]
  rename_i r newPath logs heq
  have hlogs : logs = (dtf w.fs filePath).2 := by
    have h2 := congrArg Prod.snd heq
    rw [parseFilename_logs] at h2
    exact h2.symm
  subst hlogs
  split
  · simp [hw, hdtf w.fs filePath]
  split
  · simp [hw, hdtf w.fs filePath]
  have hw2 : LogLine.exifMoveFail ∉
      (w.stderrLines ++ (dtf w.fs filePath).2 : List LogLine) := by
    simp [hw, hdtf w.fs filePath]
  split
  · split
    · rename_i hne
      exact absurd (moveOrRename_snd_none _ _ _ _ _ _) hne
    · show LogLine.exifMoveFail ∉ (moveOrRename _ _ _ _ _ _).1.stderrLines
      apply moveOrRename_no_exif_line
      apply moveOrRename_no_exif_line
      exact hw2
  · show LogLine.exifMoveFail ∉ (moveOrRename _ _ _ _ _ _).1.stderrLines
    apply moveOrRename_no_exif_line
    exact hw2

/-- Witness for C10. -/
theorem moveOrRename_always_nil_witness :
    (moveOrRename true true "/cw" "missing" "alsodir"
        ⟨⟨[], ["alsodir"]⟩, [], [], []⟩).2 = none ∧
    LogLine.exifMoveFail ∉ (visit ⟨"out", "", false⟩ false "/cw"
        getTimeFromFileTimestampD "a_2021_06_15_10_30_00.jpg" false
        ⟨⟨[("a_2021_06_15_10_30_00.jpg", "DATA")], []⟩, [], [], []⟩).1.stderrLines :=
  ⟨moveOrRename_always_nil.1 true true "/cw" "missing" "alsodir" _,
   moveOrRename_always_nil.2 ⟨"out", "", false⟩ false "/cw"
     getTimeFromFileTimestampD "a_2021_06_15_10_30_00.jpg" false _
     (fun fs f => by simp [getTimeFromFileTimestampD]) (by decide)⟩

/-- C4: a file whose resolved absolute source path equals the resolved
absolute destination path is logged with `[dupe]` and skipped — no
transfer is performed, the filesystem's files, the standard output and
the event trace are unchanged (only the destination directory was
ensured), and the visitor returns `nil`; and a deletion-enabled copy
never removes the source when source and destination resolve to the same
absolute path.  Hence a second run over already-organized output moves
nothing further. -/
theorem visit_dupe_skip_and_no_self_delete :
    (∀ (cfg : Config) (xdev : Bool) (cwd : String) (dtf : DtFunc)
       (filePath newPath : String) (logs : List LogLine) (w : World) (fs1 : FS),
      pathExt filePath ≠ ".json" →
      parseFilename cfg dtf w.fs filePath = (Except.ok newPath, logs) →
      mkdirAll w.fs (pathDir newPath) = Except.ok fs1 →
      absPath cwd filePath = absPath cwd newPath →
      visit cfg xdev cwd dtf filePath false w =
        ({ w with
            fs := fs1,
            stderrLines := w.stderrLines ++ logs ++
              [LogLine.dupe (absPath cwd newPath)] },
         none) ∧ fs1.files = w.fs.files) ∧
    (∀ (cwd src dst : String) (fs : FS),
      absPath cwd src = absPath cwd dst →
      ∀ p, FsEvent.remove p ∉ (moveFilebyCopy true cwd src dst fs).2.1) := by
  constructor
  · intro cfg xdev cwd dtf filePath newPath logs w fs1 hext hp hmk habs
    refine ⟨?_, mkdirAll_ok_files hmk⟩
    simp only [visit, Bool.false_eq_true, if_false]
    rw [if_neg hext]
    split
    · rename_i r e logs' heq
      rw [hp] at heq
      simp at heq
    rename_i r newPath' logs' heq
    rw [hp] at heq
    simp only [Prod.mk.injEq, Except.ok.injEq] at heq
    obtain ⟨h1, h2⟩ := heq
    subst h1
    subst h2
    split
    · rename_i m heq2
      have heq2' : mkdirAll w.fs (pathDir newPath) = Except.error m := heq2
      rw [hmk] at heq2'
      simp at heq2'
    rename_i fs1' heq2
    have heq2' : mkdirAll w.fs (pathDir newPath) = Except.ok fs1' := heq2
    rw [hmk] at heq2'
    simp only [Except.ok.injEq] at heq2'
    subst heq2'
    split
    · rfl
    · rename_i hne
      exact absurd habs hne
  · intro cwd src dst fs habs p
    unfold moveFilebyCopy
    by_cases h1 : ¬ fs.statOk src
    · rw [if_pos h1]
      simp
    · rw [if_neg h1]
      by_cases h2 : fs.isDir dst
      · rw [if_pos h2]
        simp
      · rw [if_neg h2]
        cases h3 : fs.files.lookup src with
        | none => simp
        | some contents => simp [habs]

/-- Witness for C4: a second pass over an already-organized file is a
no-op, and a self-copy with deletion enabled issues no removal. -/
theorem visit_dupe_skip_and_no_self_delete_witness :
    (visit ⟨"out", "", false⟩ false "/cw" getTimeFromFileTimestampD
        "out/2021/2021_06/2021_06_15/2021_06_15_10/a_2021_06_15_10_30_00.jpg" false
        ⟨⟨[("out/2021/2021_06/2021_06_15/2021_06_15_10/a_2021_06_15_10_30_00.jpg",
           "DATA")], []⟩, [], [], []⟩).1.stdoutLines = [] ∧
    FsEvent.remove "q.jpg" ∉
      (moveFilebyCopy true "/z" "q.jpg" "./q.jpg" ⟨[("q.jpg", "Q")], []⟩).2.1 := by
  constructor
  · have h := visit_dupe_skip_and_no_self_delete.1 ⟨"out", "", false⟩ false "/cw"
      getTimeFromFileTimestampD
      "out/2021/2021_06/2021_06_15/2021_06_15_10/a_2021_06_15_10_30_00.jpg"
      "out/2021/2021_06/2021_06_15/2021_06_15_10/a_2021_06_15_10_30_00.jpg" []
      ⟨⟨[("out/2021/2021_06/2021_06_15/2021_06_15_10/a_2021_06_15_10_30_00.jpg",
         "DATA")], []⟩, [], [], []⟩
      ⟨[("out/2021/2021_06/2021_06_15/2021_06_15_10/a_2021_06_15_10_30_00.jpg",
         "DATA")], ["out/2021/2021_06/2021_06_15/2021_06_15_10"]⟩
      (by decide) (by rfl) (by rfl) (by rfl)
    rw [congrArg (fun p => (Prod.fst p).stdoutLines) h.1]
  · exact visit_dupe_skip_and_no_self_delete.2 "/z" "q.jpg" "./q.jpg"
      ⟨[("q.jpg", "Q")], []⟩ (by rfl) "q.jpg"

/-- C5 counterexample: the destination path is printed on standard output
even though the file's transfer failed (the destination exists as a
directory, so the copy's create step fails and `[move]` is logged) — the
claim that standard output is written only on overall success is false. -/
theorem stdout_emitted_on_failed_transfer :
    (visit ⟨"out", "", false⟩ false "/cw" getTimeFromFileTimestampD
        "a_2021_06_15_10_30_00.jpg" false
        ⟨⟨[("a_2021_06_15_10_30_00.jpg", "DATA")],
          ["/cw/out/2021/2021_06/2021_06_15/2021_06_15_10/a_2021_06_15_10_30_00.jpg"]⟩,
          [], [], []⟩).1.stdoutLines =
      ["out/2021/2021_06/2021_06_15/2021_06_15_10/a_2021_06_15_10_30_00.jpg"] ∧
    (visit ⟨"out", "", false⟩ false "/cw" getTimeFromFileTimestampD
        "a_2021_06_15_10_30_00.jpg" false
        ⟨⟨[("a_2021_06_15_10_30_00.jpg", "DATA")],
          ["/cw/out/2021/2021_06/2021_06_15/2021_06_15_10/a_2021_06_15_10_30_00.jpg"]⟩,
          [], [], []⟩).1.stderrLines =
      [LogLine.move "create destination: is a directory"] := by
  exact ⟨by rfl, by rfl⟩

/-- C5 (amended): when the timestamp cannot be resolved, standard output
emits nothing for the file and a `[parse]` diagnostic goes to standard
error; but once the timestamp, the directory creation and the duplicate
check succeed, the destination path is printed on standard output
regardless of whether the transfer itself succeeded. -/
theorem stdout_emission_conditions :
    (∀ (cfg : Config) (xdev : Bool) (cwd : String) (dtf : DtFunc)
       (filePath : String) (w : World) (e : TsErr) (logs : List LogLine),
      pathExt filePath ≠ ".json" →
      parseFilename cfg dtf w.fs filePath = (Except.error e, logs) →
      visit cfg xdev cwd dtf filePath false w =
        ({ w with stderrLines := w.stderrLines ++ logs ++ [LogLine.parse e] },
         none)) ∧
    (∀ (cfg : Config) (xdev : Bool) (cwd : String) (dtf : DtFunc)
       (filePath newPath : String) (logs : List LogLine) (w : World) (fs1 : FS),
      pathExt filePath ≠ ".json" →
      parseFilename cfg dtf w.fs filePath = (Except.ok newPath, logs) →
      mkdirAll w.fs (pathDir newPath) = Except.ok fs1 →
      absPath cwd filePath ≠ absPath cwd newPath →
      (visit cfg xdev cwd dtf filePath false w).1.stdoutLines =
        w.stdoutLines ++ [newPath]) := by
  constructor
  · intro cfg xdev cwd dtf filePath w e logs hext hp
    simp only [visit, Bool.false_eq_true, if_false]
    rw [if_neg hext]
    split
    · rename_i r e' logs' heq
      rw [hp] at heq
      simp only [Prod.mk.injEq, Except.error.injEq] at heq
      obtain ⟨h1, h2⟩ := heq
      subst h1
      subst h2
      rfl
    · rename_i r newPath' logs' heq
      rw [hp] at heq
      simp at heq
  · intro cfg xdev cwd dtf filePath newPath logs w fs1 hext hp hmk hne
    simp only [visit, Bool.false_eq_true, if_false]
    rw [if_neg hext]
    split
    · rename_i r e' logs' heq
      rw [hp] at heq
      simp at heq
    rename_i r newPath' logs' heq
    rw [hp] at heq
    simp only [Prod.mk.injEq, Except.ok.injEq] at heq
    obtain ⟨h1, h2⟩ := heq
    subst h1
    subst h2
    split
    · rename_i m heq2
      have heq2' : mkdirAll w.fs (pathDir newPath) = Except.error m := heq2
      rw [hmk] at heq2'
      simp at heq2'
    rename_i fs1' heq2
    split
    · rename_i habs'
      exact absurd habs' hne
    split
    · split
      · rename_i hne2
        exact absurd (moveOrRename_snd_none _ _ _ _ _ _) hne2
      · simp only [moveOrRename_stdout]
    · simp only [moveOrRename_stdout]

/-- Witness for the amended C5. -/
theorem stdout_emission_conditions_witness :
    visit ⟨"out", "", false⟩ false "/cw" getTimeFromFileTimestampD
        "noTimestampHere.jpg" false
        ⟨⟨[("noTimestampHere.jpg", "D")], []⟩, [], [], []⟩ =
      ({ (⟨⟨[("noTimestampHere.jpg", "D")], []⟩, [], [], []⟩ : World) with
          stderrLines := [] ++ [] ++ [LogLine.parse TsErr.noTimestamp] }, none) ∧
    (visit ⟨"out", "", false⟩ false "/cw" getTimeFromFileTimestampD
        "b_2021_06_15_10_30_00.jpg" false
        ⟨⟨[("b_2021_06_15_10_30_00.jpg", "B")], []⟩, [], [], []⟩).1.stdoutLines =
      [] ++ ["out/2021/2021_06/2021_06_15/2021_06_15_10/b_2021_06_15_10_30_00.jpg"] :=
  ⟨stdout_emission_conditions.1 ⟨"out", "", false⟩ false "/cw"
     getTimeFromFileTimestampD "noTimestampHere.jpg"
     ⟨⟨[("noTimestampHere.jpg", "D")], []⟩, [], [], []⟩ TsErr.noTimestamp []
     (by decide) (by rfl),
   stdout_emission_conditions.2 ⟨"out", "", false⟩ false "/cw"
     getTimeFromFileTimestampD "b_2021_06_15_10_30_00.jpg"
     "out/2021/2021_06/2021_06_15/2021_06_15_10/b_2021_06_15_10_30_00.jpg" []
     ⟨⟨[("b_2021_06_15_10_30_00.jpg", "B")], []⟩, [], [], []⟩
     ⟨[("b_2021_06_15_10_30_00.jpg", "B")],
      ["out/2021/2021_06/2021_06_15/2021_06_15_10"]⟩
     (by decide) (by rfl) (by rfl) (by decide)⟩

/-- C6 counterexample: when the primary transfer fails (destination exists
as a directory), processing does not stop for the file — the sidecar is
still copied to the destination's `.json` path and the destination is
still printed — contradicting the claim that the sidecar is not moved
after a failed primary transfer. -/
theorem sidecar_moved_despite_failed_transfer :
    (visit ⟨"out", "", false⟩ false "/cw" getTimeFromFileTimestampD
        "c_2021_06_15_10_30_00.jpg" false
        ⟨⟨[("c_2021_06_15_10_30_00.jpg", "DATA"),
           ("c_2021_06_15_10_30_00.jpg.json", "J")],
          ["/cw/out/2021/2021_06/2021_06_15/2021_06_15_10/c_2021_06_15_10_30_00.jpg"]⟩,
          [], [], []⟩).1.stderrLines =
      [LogLine.move "create destination: is a directory"] ∧
    (visit ⟨"out", "", false⟩ false "/cw" getTimeFromFileTimestampD
        "c_2021_06_15_10_30_00.jpg" false
        ⟨⟨[("c_2021_06_15_10_30_00.jpg", "DATA"),
           ("c_2021_06_15_10_30_00.jpg.json", "J")],
          ["/cw/out/2021/2021_06/2021_06_15/2021_06_15_10/c_2021_06_15_10_30_00.jpg"]⟩,
          [], [], []⟩).1.fs.files.lookup
      "/cw/out/2021/2021_06/2021_06_15/2021_06_15_10/c_2021_06_15_10_30_00.jpg.json" =
      some "J" ∧
    (visit ⟨"out", "", false⟩ false "/cw" getTimeFromFileTimestampD
        "c_2021_06_15_10_30_00.jpg" false
        ⟨⟨[("c_2021_06_15_10_30_00.jpg", "DATA"),
           ("c_2021_06_15_10_30_00.jpg.json", "J")],
          ["/cw/out/2021/2021_06/2021_06_15/2021_06_15_10/c_2021_06_15_10_30_00.jpg"]⟩,
          [], [], []⟩).1.stdoutLines =
      ["out/2021/2021_06/2021_06_15/2021_06_15_10/c_2021_06_15_10_30_00.jpg"] := by
  exact ⟨by rfl, by rfl, by rfl⟩

theorem moveOrRename_stderr_of_fail (del xdev : Bool) (cwd source dest : String)
    (w : World) (msg : String)
    (h : (moveOrRenameRes del xdev cwd source dest w.fs).2.2 = some msg) :
    (moveOrRename del xdev cwd source dest w).1.stderrLines =
      w.stderrLines ++ [LogLine.move msg] := by
  simp only [moveOrRename]
  split
  · rename_i e heq
    rw [h] at heq
    injection heq with he
    subst he
    rfl
  · rename_i heq
    rw [h] at heq
    simp at heq

/-- C6 (amended): a failed primary transfer is logged with `[move]`, but
processing of the file does not stop: the sidecar step still runs (the
sidecar, if present, is transferred to `{destination}.json`), the
destination is still printed, and the visitor still returns `nil`. -/
theorem visit_continues_after_transfer_failure
    (cfg : Config) (xdev : Bool) (cwd : String) (dtf : DtFunc)
    (filePath newPath : String) (logs : List LogLine) (w : World) (fs1 : FS)
    (hext : pathExt filePath ≠ ".json")
    (hp : parseFilename cfg dtf w.fs filePath = (Except.ok newPath, logs))
    (hmk : mkdirAll w.fs (pathDir newPath) = Except.ok fs1)
    (hne : absPath cwd filePath ≠ absPath cwd newPath)
    (hfail : (moveOrRenameRes cfg.del xdev cwd filePath
      (absPath cwd newPath) fs1).2.2 ≠ none) :
    ∃ msg,
      visit cfg xdev cwd dtf filePath false w =
        (let w2 : World :=
          { w with fs := fs1, stderrLines := w.stderrLines ++ logs }
         let mr := moveOrRename cfg.del xdev cwd filePath (absPath cwd newPath) w2
         let w4 :=
           if mr.1.fs.statOk (filePath ++ ".json") then
             (moveOrRename cfg.del xdev cwd (filePath ++ ".json")
               (absPath cwd newPath ++ ".json") mr.1).1
           else mr.1
         ({ w4 with stdoutLines := w4.stdoutLines ++ [newPath] }, none)) ∧
      LogLine.move msg ∈ (visit cfg xdev cwd dtf filePath false w).1.stderrLines := by
  obtain ⟨msg, hmsg⟩ := Option.ne_none_iff_exists'.mp hfail
  have hvis : visit cfg xdev cwd dtf filePath false w =
      (let w2 : World :=
        { w with fs := fs1, stderrLines := w.stderrLines ++ logs }
       let mr := moveOrRename cfg.del xdev cwd filePath (absPath cwd newPath) w2
       let w4 :=
         if mr.1.fs.statOk (filePath ++ ".json") then
           (moveOrRename cfg.del xdev cwd (filePath ++ ".json")
             (absPath cwd newPath ++ ".json") mr.1).1
         else mr.1
       ({ w4 with stdoutLines := w4.stdoutLines ++ [newPath] }, none)) := by
    simp only [visit, Bool.false_eq_true, if_false]
    rw [if_neg hext]
    split
    · rename_i r e' logs' heq
      rw [hp] at heq
      simp at heq
    rename_i r newPath' logs' heq
    rw [hp] at heq
    simp only [Prod.mk.injEq, Except.ok.injEq] at heq
    obtain ⟨h1, h2⟩ := heq
    subst h1
    subst h2
    split
    · rename_i m heq2
      have heq2' : mkdirAll w.fs (pathDir newPath) = Except.error m := heq2
      rw [hmk] at heq2'
      simp at heq2'
    rename_i fs1' heq2
    have heq2' : mkdirAll w.fs (pathDir newPath) = Except.ok fs1' := heq2
    rw [hmk] at heq2'
    simp only [Except.ok.injEq] at heq2'
    subst heq2'
    split
    · rename_i habs'
      exact absurd habs' hne
    split
    · split
      · rename_i hne2
        exact absurd (moveOrRename_snd_none _ _ _ _ _ _) hne2
      · rename_i hjs _
        simp only [if_pos hjs, moveOrRename_snd_none]
    · rename_i hjs
      simp only [if_neg hjs, moveOrRename_snd_none]
  refine ⟨msg, hvis, ?_⟩
  rw [hvis]
  have hmem1 : LogLine.move msg ∈
      (moveOrRename cfg.del xdev cwd filePath (absPath cwd newPath)
        { w with fs := fs1, stderrLines := w.stderrLines ++ logs }).1.stderrLines := by
    rw [moveOrRename_stderr_of_fail cfg.del xdev cwd filePath (absPath cwd newPath)
      { w with fs := fs1, stderrLines := w.stderrLines ++ logs } msg hmsg]
    simp
  show LogLine.move msg ∈
      (if (moveOrRename cfg.del xdev cwd filePath (absPath cwd newPath)
            { w with fs := fs1, stderrLines := w.stderrLines ++ logs }).1.fs.statOk
          (filePath ++ ".json") = true then
        (moveOrRename cfg.del xdev cwd (filePath ++ ".json")
          (absPath cwd newPath ++ ".json")
          (moveOrRename cfg.del xdev cwd filePath (absPath cwd newPath)
            { w with fs := fs1, stderrLines := w.stderrLines ++ logs }).1).1
      else
        (moveOrRename cfg.del xdev cwd filePath (absPath cwd newPath)
          { w with fs := fs1, stderrLines := w.stderrLines ++ logs }).1).stderrLines
  split
  · exact moveOrRename_stderr_mem _ _ _ _ _ _ hmem1
  · exact hmem1

/-- Witness for the amended C6. -/
theorem visit_continues_after_transfer_failure_witness :
    ∃ msg, LogLine.move msg ∈
      (visit ⟨"out", "", false⟩ false "/cw" getTimeFromFileTimestampD
        "c_2021_06_15_10_30_00.jpg" false
        ⟨⟨[("c_2021_06_15_10_30_00.jpg", "DATA"),
           ("c_2021_06_15_10_30_00.jpg.json", "J")],
          ["/cw/out/2021/2021_06/2021_06_15/2021_06_15_10/c_2021_06_15_10_30_00.jpg"]⟩,
          [], [], []⟩).1.stderrLines := by
  obtain ⟨msg, _, hmem⟩ := visit_continues_after_transfer_failure
    ⟨"out", "", false⟩ false "/cw" getTimeFromFileTimestampD
    "c_2021_06_15_10_30_00.jpg"
    "out/2021/2021_06/2021_06_15/2021_06_15_10/c_2021_06_15_10_30_00.jpg" []
    ⟨⟨[("c_2021_06_15_10_30_00.jpg", "DATA"),
       ("c_2021_06_15_10_30_00.jpg.json", "J")],
      ["/cw/out/2021/2021_06/2021_06_15/2021_06_15_10/c_2021_06_15_10_30_00.jpg"]⟩,
      [], [], []⟩
    ⟨[("c_2021_06_15_10_30_00.jpg", "DATA"),
      ("c_2021_06_15_10_30_00.jpg.json", "J")],
     ["out/2021/2021_06/2021_06_15/2021_06_15_10",
      "/cw/out/2021/2021_06/2021_06_15/2021_06_15_10/c_2021_06_15_10_30_00.jpg"]⟩
    (by decide) (by rfl) (by rfl) (by decide) (by decide)
  exact ⟨msg, hmem⟩

/-- C8: in the metadata strategy, an existing `{filePath}.json` sidecar is
always used: the result does not depend on the embedded-metadata reader
at all (so a sidecar read or parse failure never falls back to embedded
metadata in the same run), and when the sidecar is read and unmarshalled
its `DateTime` field is the value parsed. -/
theorem getTimeFromExif_sidecar_preference
    (unmarshal : String → Option ExifFromJSON) (e1 e2 : String → Option String)
    (fs : FS) (f : String) (hs : fs.statOk (f ++ ".json") = true) :
    getTimeFromExif unmarshal e1 fs f = getTimeFromExif unmarshal e2 fs f ∧
    (∀ (b : String) (r : ExifFromJSON),
      fs.files.lookup (f ++ ".json") = some b → unmarshal b = some r →
      getTimeFromExif unmarshal e1 fs f =
        (match timeParseDumbExif r.DateTime with
         | none => (Except.error TsErr.malformed, [LogLine.parseDatetime])
         | some dt => (Except.ok dt, []))) := by
  constructor
  · unfold getTimeFromExif
    rw [if_pos hs, if_pos hs]
  · intro b r hb hr
    unfold getTimeFromExif
    rw [if_pos hs, hb]
    simp only [hr]
    cases timeParseDumbExif r.DateTime <;> simp

/-- Witness for C8. -/
theorem getTimeFromExif_sidecar_preference_witness :
    getTimeFromExif
        (fun s => if s = "J" then some ⟨"2021:06:15 10:30:00", "", ""⟩ else none)
        (fun _ => some "1999:01:01 00:00:00")
        ⟨[("p.jpg", "P"), ("p.jpg.json", "J")], []⟩ "p.jpg" =
      getTimeFromExif
        (fun s => if s = "J" then some ⟨"2021:06:15 10:30:00", "", ""⟩ else none)
        (fun _ => none)
        ⟨[("p.jpg", "P"), ("p.jpg.json", "J")], []⟩ "p.jpg" ∧
    getTimeFromExif
        (fun s => if s = "J" then some ⟨"2021:06:15 10:30:00", "", ""⟩ else none)
        (fun _ => some "1999:01:01 00:00:00")
        ⟨[("p.jpg", "P"), ("p.jpg.json", "J")], []⟩ "p.jpg" =
      (Except.ok ⟨2021, 6, 15, 10, 30, 0⟩, []) := by
  have h := getTimeFromExif_sidecar_preference
    (fun s => if s = "J" then some ⟨"2021:06:15 10:30:00", "", ""⟩ else none)
    (fun _ => some "1999:01:01 00:00:00") (fun _ => none)
    ⟨[("p.jpg", "P"), ("p.jpg.json", "J")], []⟩ "p.jpg" (by rfl)
  refine ⟨h.1, ?_⟩
  rw [h.2 "J" ⟨"2021:06:15 10:30:00", "", ""⟩ (by rfl) (by rfl)]
  rfl

end Tsrename
